import Mathlib

/-
Verification of the OCI-to-OSTree import pipeline (flatpak-import.py).

The development shallowly embeds the program: JSON documents become an
inductive value type, the local OCI registry directory becomes an explicit
filesystem map, the OSTree repository becomes a record with a staged
transaction copy, and every fallible Python operation returns an
explicit error value.  Python exceptions (KeyError, ValueError,
TypeError, FileNotFoundError, ...) are represented by the Err type.
-/

set_option maxRecDepth 4000

namespace FlatpakImport

/-- Errors of the embedded program; each constructor corresponds to a
Python exception (or GLib error) the source can raise. -/
inductive Err where
  | keyError (key : String)
  | indexError
  | valueError
  | typeError
  | fileNotFound (path : String)
  | notADirectory (path : String)
  | isADirectory (path : String)
  | jsonDecodeError (path : String)
  | calledProcessError
  | binasciiError
  | gioError (msg : String)
  deriving Repr, DecidableEq

/-- JSON values, as produced by json.load.  Only the shapes the program
navigates are needed. -/
inductive JVal where
  | str (s : String)
  | num (n : Int)
  | arr (elems : List JVal)
  | obj (entries : List (String × JVal))
  deriving Repr

/-- Python dict subscript d[k] on a JSON object: KeyError when the key is
absent, TypeError when the value is not an object.  Insertion order is
preserved, first binding wins (Python dicts have unique keys). -/
def JVal.getItem (v : JVal) (k : String) : Except Err JVal :=
  match v with
  | .obj entries =>
      match entries.find? (fun p => p.1 == k) with
      | some p => .ok p.2
      | none => .error (.keyError k)
  | _ => .error .typeError

/-- View a JSON value as a string (used where a GI call or a string
operation in the source requires str and raises TypeError otherwise). -/
def JVal.asStr (v : JVal) : Except Err String :=
  match v with
  | .str s => .ok s
  | _ => .error .typeError

/-- View a JSON value as an array. -/
def JVal.asArr (v : JVal) : Except Err (List JVal) :=
  match v with
  | .arr xs => .ok xs
  | _ => .error .typeError

/-- Lookup in a JSON object entry list: dict.get, returning None when
absent. -/
def pyDictGetJ (entries : List (String × JVal)) (k : String) : Option JVal :=
  (entries.find? (fun p => p.1 == k)).map (fun p => p.2)

/-- Split a character list at every occurrence of a separator
character. -/
def splitCharList (sep : Char) : List Char → List (List Char)
  | [] => [[]]
  | c :: rest =>
      if c == sep then [] :: splitCharList sep rest
      else
        match splitCharList sep rest with
        | [] => [[c]]
        | h :: t => (c :: h) :: t

/-- Python s.split(sep) for a one-character separator. -/
def strSplit (sep : Char) (s : String) : List String :=
  (splitCharList sep s.data).map String.mk

/-- Test whether the first list is an initial segment of the second. -/
def listPrefixEq : List Char → List Char → Bool
  | [], _ => true
  | _ :: _, [] => false
  | a :: as, b :: bs => a == b && listPrefixEq as bs

/-- Python s.startswith(p). -/
def strStartsWith (s p : String) : Bool :=
  listPrefixEq p.data s.data

/-- Python s[n:] (labels are ASCII, so character indexing is exact). -/
def strDrop (s : String) (n : Nat) : String :=
  String.mk (s.data.drop n)

/-- Python s.split(":", 1): split at the first colon only. -/
def pySplitColon1 (s : String) : List String :=
  match strSplit ':' s with
  | [] => [s]
  | [x] => [x]
  | x :: rest => [x, String.intercalate ":" rest]

/-- Python tuple unpacking a, b = xs of a list into two variables;
ValueError when the list does not have exactly two elements. -/
def unpack2 (xs : List String) : Except Err (String × String) :=
  match xs with
  | [a, b] => .ok (a, b)
  | _ => .error .valueError

/-- Decimal digit value of a character, if any. -/
def digitVal (c : Char) : Option Nat :=
  if '0' ≤ c ∧ c ≤ '9' then some (c.toNat - 48) else none

/-- Parse a non-empty digit sequence into a natural number. -/
def parseDigits (acc : Nat) : List Char → Option Nat
  | [] => some acc
  | c :: rest =>
      match digitVal c with
      | some d => parseDigits (acc * 10 + d) rest
      | none => none

/-- Whitespace test used by int() when stripping. -/
def isSpaceChar (c : Char) : Bool :=
  c == ' ' || c == '\t' || c == '\n' || c == '\r'

/-- Python int(s) on a string: optional surrounding whitespace, optional
sign, a non-empty digit sequence; ValueError otherwise. -/
def pyIntStr (s : String) : Except Err Int :=
  let cs := ((s.data.dropWhile isSpaceChar).reverse.dropWhile isSpaceChar).reverse
  let signed : Option Int :=
    match cs with
    | '-' :: rest =>
        if rest.isEmpty then none else (parseDigits 0 rest).map (fun n => -(n : Int))
    | '+' :: rest =>
        if rest.isEmpty then none else (parseDigits 0 rest).map (fun n => (n : Int))
    | _ =>
        if cs.isEmpty then none else (parseDigits 0 cs).map (fun n => (n : Int))
  match signed with
  | some n => .ok n
  | none => .error .valueError

/-- Python int(v) applied to a JSON value: numbers pass through, strings
are parsed, anything else raises TypeError. -/
def pyIntJ (v : JVal) : Except Err Int :=
  match v with
  | .num n => .ok n
  | .str s => pyIntStr s
  | _ => .error .typeError

/-- Python truthiness of an optional string (an absent value and the
empty string are falsy). -/
def pyTruthyOpt (o : Option String) : Bool :=
  match o with
  | none => false
  | some s => s ≠ ""

/-- Value of one base64 alphabet character. -/
def b64val (c : Char) : Option Nat :=
  if 'A' ≤ c ∧ c ≤ 'Z' then some (c.toNat - 65)
  else if 'a' ≤ c ∧ c ≤ 'z' then some (c.toNat - 71)
  else if '0' ≤ c ∧ c ≤ '9' then some (c.toNat + 4)
  else if c = '+' then some 62
  else if c = '/' then some 63
  else none

/-- Decode base64 characters in groups of four; padding is only legal in
the final group.  Models binascii behind base64.b64decode. -/
def b64groups : List Char → Except Err (List Nat)
  | [] => .ok []
  | a :: b :: '=' :: '=' :: [] =>
      match b64val a, b64val b with
      | some x, some y => .ok [(x * 4 + y / 16) % 256]
      | _, _ => .error .binasciiError
  | a :: b :: c :: '=' :: [] =>
      match b64val a, b64val b, b64val c with
      | some x, some y, some z =>
          .ok [(x * 4 + y / 16) % 256, (y % 16 * 16 + z / 4) % 256]
      | _, _, _ => .error .binasciiError
  | a :: b :: c :: d :: rest =>
      match b64val a, b64val b, b64val c, b64val d with
      | some x, some y, some z, some w => do
          let tail ← b64groups rest
          .ok ((x * 4 + y / 16) % 256 :: (y % 16 * 16 + z / 4) % 256 ::
               (z % 4 * 64 + w) % 256 :: tail)
      | _, _, _, _ => .error .binasciiError
  | _ => .error .binasciiError

/-- Python base64.b64decode (validate=False): characters outside the
alphabet and padding are discarded, then the rest must decode in groups
of four; binascii.Error otherwise. -/
def b64decode (s : String) : Except Err (List Nat) :=
  b64groups (s.toList.filter (fun c => (b64val c).isSome || c = '='))

/-! Filesystem model.  Paths are absolute strings; the filesystem maps a
path to a node (directory or file).  File contents are either a JSON
document or a tar archive (represented by the file tree it unpacks to)
or raw bytes, since those are the only contents the program touches. -/

/-- Content of a regular file. -/
inductive Content where
  | json (v : JVal)
  | archive (entries : List (String × String))
  | raw (s : String)
  deriving Repr

/-- A filesystem node. -/
inductive FsNode where
  | dir
  | file (content : Content)
  deriving Repr

/-- A filesystem: association list from absolute path to node, first
binding wins. -/
abbrev FS := List (String × FsNode)

/-- Node at a path, if any. -/
def fsGet (fs : FS) (p : String) : Option FsNode :=
  (fs.find? (fun e => e.1 == p)).map (fun e => e.2)

/-- pathlib Path.exists(). -/
def fsExists (fs : FS) (p : String) : Bool :=
  (fsGet fs p).isSome

/-- Set (create or replace) the node at a path. -/
def fsSet (fs : FS) (p : String) (n : FsNode) : FS :=
  (p, n) :: fs.filter (fun e => e.1 != p)

/-- Remove the node at a path. -/
def fsRemove (fs : FS) (p : String) : FS :=
  fs.filter (fun e => e.1 != p)

/-- Parent directory of an absolute path (os.path.dirname). -/
def dirname (p : String) : String :=
  let parts := strSplit '/' p
  let d := String.intercalate "/" parts.dropLast
  if d = "" then "/" else d

/-- pathlib Path.joinpath / os.path.join for one component: an absolute
second component replaces the first. -/
def joinpath (a b : String) : String :=
  if strStartsWith b "/" then b else a ++ "/" ++ b

/-- Python open(path, "w") followed by a full write: requires the parent
directory to exist; creates or truncates the file.  FileNotFoundError
when the parent is missing, IsADirectoryError when the path is a
directory, NotADirectoryError when the parent is a file. -/
def openWrite (fs : FS) (p : String) (c : Content) : Except Err FS :=
  match fsGet fs (dirname p) with
  | some .dir =>
      match fsGet fs p with
      | some .dir => .error (.isADirectory p)
      | _ => .ok (fsSet fs p (.file c))
  | some (.file _) => .error (.notADirectory (dirname p))
  | none => .error (.fileNotFound p)

/-- All ancestor paths of an absolute path, outermost first, the path
itself included. -/
def prefixPaths (p : String) : List String :=
  let parts := (strSplit '/' p).filter (fun s => s ≠ "")
  (List.range parts.length).map
    (fun i => "/" ++ String.intercalate "/" (parts.take (i + 1)))

/-- Create every directory in a list in order, tolerating existing
directories (exist_ok=True); a path occupied by a file fails. -/
def mkdirList (fs : FS) : List String → Except Err FS
  | [] => .ok fs
  | q :: rest =>
      match fsGet fs q with
      | some .dir => mkdirList fs rest
      | some (.file _) => .error (.notADirectory q)
      | none => mkdirList (fsSet fs q .dir) rest

/-- pathlib Path.mkdir(parents=True, exist_ok=True). -/
def mkdirParents (fs : FS) (p : String) : Except Err FS :=
  mkdirList fs (prefixPaths p)

/-! The Registry class: the local OCI-layout blob store. -/

/-- The MEDIA_TYPES module constant. -/
def MEDIA_TYPES : List (String × String) :=
  [("layer", "application/vnd.oci.image.layer.v1.tar"),
   ("manifest", "application/vnd.oci.image.manifest.v1+json"),
   ("config", "application/vnd.oci.image.config.v1+json")]

/-- External primitives the blob store relies on: the sha256sum
subprocess and os.stat, both treated as trusted deterministic
functions of the file content. -/
structure Prims where
  sha256 : Content → String
  fsize : Content → Nat

/-- The in-memory part of a constructed Registry: its root path and the
mapping from digest algorithm to blob directory (self.blobs). -/
structure Registry where
  root : String
  blobs : List (String × String)
  deriving Repr

/-- Registry.init: write the oci-layout marker file under the root.
Note the source opens root/oci-layout for writing without ever creating
the root directory itself. -/
def Registry.initStore (root : String) (fs : FS) : Except Err FS :=
  openWrite fs (joinpath root "oci-layout")
    (.json (.obj [("imageLayoutVersion", .str "1.0.0")]))

/-- Registry.__init__: run init when the root does not exist, then make
the blobs/sha256 directory (parents=True, exist_ok=True) and record it
in self.blobs. -/
def registryNew (root : String) (fs : FS) : Except Err (Registry × FS) := do
  let fs1 ← if fsExists fs root then pure fs else Registry.initStore root fs
  let algDir := joinpath (joinpath root "blobs") "sha256"
  let fs2 ← mkdirParents fs1 algDir
  .ok ({ root := root, blobs := [("sha256", algDir)] }, fs2)

/-- Registry.path_for_blob: split the digest at the first colon; None
when the algorithm has no blob directory, the joined path otherwise.
A digest without a colon fails tuple unpacking (ValueError). -/
def Registry.path_for_blob (reg : Registry) (digest : String) :
    Except Err (Option String) := do
  let (algorithm, want) ← unpack2 (pySplitColon1 digest)
  match reg.blobs.find? (fun e => e.1 == algorithm) with
  | none => .ok none
  | some e => .ok (some (joinpath e.2 want))

/-- Registry.blobs_add_file: hash the file, stat its size, rename it
into the sha256 blob directory and return the descriptor dict. -/
def Registry.blobs_add_file (prims : Prims) (reg : Registry) (fs : FS)
    (path : String) (mtype : String) : Except Err (JVal × FS) := do
  let blobsDir ← match reg.blobs.find? (fun e => e.1 == "sha256") with
    | some e => .ok e.2
    | none => .error (.keyError "sha256")
  let content ← match fsGet fs path with
    | some (.file c) => .ok c
    | _ => .error .calledProcessError
  let digest := prims.sha256 content
  let size := prims.fsize content
  let mediaType ← match MEDIA_TYPES.find? (fun e => e.1 == mtype) with
    | some e => .ok e.2
    | none => .error (.keyError mtype)
  let fs2 := fsSet (fsRemove fs path) (joinpath blobsDir digest) (.file content)
  .ok (.obj [("digest", .str ("sha256:" ++ digest)),
             ("size", .num size),
             ("mediaType", .str mediaType)], fs2)

/-- Result of tempfile.mkstemp: a PAIR of a file descriptor and the new
file name, not a plain path. -/
inductive PyFile where
  | strPath (s : String)
  | fdPair (fd : Nat) (name : String)
  deriving Repr

/-- tempfile.mkstemp(dir, prefix): create a fresh empty file in dir and
return the (fd, name) pair. -/
def mkstemp (fs : FS) (dir : String) (pre : String) :
    Except Err (PyFile × FS) :=
  match fsGet fs dir with
  | some .dir =>
      let name := joinpath dir (pre ++ toString fs.length)
      .ok (.fdPair 3 name, fsSet fs name (.file (.raw "")))
  | _ => .error (.fileNotFound dir)

/-- Python open(x, "w") where x may be any value: a str is opened as a
path; a tuple (as returned by mkstemp) raises TypeError. -/
def openWritePy (fs : FS) (x : PyFile) (c : Content) : Except Err FS :=
  match x with
  | .strPath s => openWrite fs s c
  | .fdPair _ _ => .error .typeError

/-- Registry.blobs_add_json: make a temp file with mkstemp, open the
mkstemp RESULT (the (fd, name) tuple) for writing — which raises
TypeError — then (unreachably) delegate to blobs_add_file. -/
def Registry.blobs_add_json (prims : Prims) (reg : Registry) (fs : FS)
    (js : JVal) (mtype : String) : Except Err (JVal × FS) := do
  let (js_file, fs1) ← mkstemp fs reg.root ".temp-"
  let fs2 ← openWritePy fs1 js_file (.json js)
  match js_file with
  | .strPath s => Registry.blobs_add_file prims reg fs2 s mtype
  | .fdPair _ _ => .error .typeError

/-- Registry.blobs_get_json: resolve the blob path and parse the file as
JSON.  open(None) raises TypeError; a missing file FileNotFoundError;
non-JSON content json.JSONDecodeError. -/
def Registry.blobs_get_json (reg : Registry) (fs : FS) (digest : String) :
    Except Err JVal := do
  let pOpt ← reg.path_for_blob digest
  match pOpt with
  | none => .error .typeError
  | some p =>
      match fsGet fs p with
      | some (.file (.json v)) => .ok v
      | some (.file _) => .error (.jsonDecodeError p)
      | some .dir => .error (.isADirectory p)
      | none => .error (.fileNotFound p)

/-! OSTree repository model.  The observable repository state is a set
of refs and a store of commit and tree objects; during a transaction all
writes go to a staged copy that becomes observable only when the
transaction is committed and is dropped when it is aborted. -/

/-- A value stored in commit metadata (GVariant): either the opaque
deserialized payload of a commit-metadata label, or a plain string (the
synthesized entries). -/
inductive MVal where
  | payload (bytes : List Nat)
  | str (s : String)
  deriving Repr, DecidableEq

/-- A merged filesystem tree: map from path to file content (whole-entry
granularity, matching the claim level of the merge policy). -/
abbrev Tree := List (String × String)

/-- An OSTree commit object. -/
structure CommitObj where
  parent : Option String
  subject : String
  body : String
  metadata : List (String × MVal)
  root : String
  timestamp : Int
  deriving Repr, DecidableEq

/-- Observable repository content: refs, commit objects, tree objects. -/
structure OstreeRepo where
  refs : List (String × String)
  commits : List (String × CommitObj)
  objects : List (String × Tree)
  deriving Repr, DecidableEq

/-- Repository plus optional staged transaction copy. -/
structure RepoState where
  repo : OstreeRepo
  txn : Option OstreeRepo
  deriving Repr, DecidableEq

/-- Replace the binding of a key in an association list, or append a new
binding. -/
def setAssoc (l : List (String × String)) (k v : String) :
    List (String × String) :=
  if l.any (fun e => e.1 == k) then
    l.map (fun e => if e.1 == k then (k, v) else e)
  else l ++ [(k, v)]

/-- ostree_repo_prepare_transaction: start staging. -/
def prepare_transaction (st : RepoState) : RepoState :=
  { st with txn := some st.repo }

/-- ostree_repo_abort_transaction: drop everything staged. -/
def abort_transaction (st : RepoState) : RepoState :=
  { st with txn := none }

/-- ostree_repo_commit_transaction: publish the staged state. -/
def commit_transaction (st : RepoState) : Except Err RepoState :=
  match st.txn with
  | some r => .ok { repo := r, txn := none }
  | none => .error (.gioError "no transaction")

/-- Apply a write to the staged copy when a transaction is active, to
the repository directly otherwise (the source only writes inside a
transaction). -/
def stagedMod (st : RepoState) (f : OstreeRepo → OstreeRepo) : RepoState :=
  match st.txn with
  | some r => { st with txn := some (f r) }
  | none => { st with repo := f st.repo }

/-- Length-prefixed string encoding, used to derive content ids. -/
def encStr (s : String) : String :=
  toString s.length ++ ":" ++ s

/-- Encoding of a metadata value. -/
def encMVal : MVal → String
  | .payload bs => "p" ++ String.intercalate "," (bs.map toString)
  | .str s => "s" ++ encStr s

/-- Encoding of a metadata mapping. -/
def encMeta (md : List (String × MVal)) : String :=
  String.intercalate ";" (md.map (fun e => encStr e.1 ++ "=" ++ encMVal e.2))

/-- Content identity of a tree (the checksum ostree_repo_write_mtree
derives from the tree content), modeled as an injective encoding. -/
def treeId (t : Tree) : String :=
  "tree:" ++ String.intercalate ";" (t.map (fun e => encStr e.1 ++ "=" ++ encStr e.2))

/-- Content identity of a commit object (the checksum
ostree_repo_write_commit derives from the serialized commit), modeled as
an injective encoding. -/
def commitId (c : CommitObj) : String :=
  "commit:" ++ encStr (c.parent.getD "") ++ encStr c.subject ++
    encStr c.body ++ encStr (encMeta c.metadata) ++ encStr c.root ++
    toString c.timestamp

/-- ostree_repo_write_mtree: persist the tree object (staged) and return
its content identity. -/
def write_mtree (st : RepoState) (t : Tree) : RepoState × String :=
  let root := treeId t
  (stagedMod st (fun r => { r with objects := (root, t) :: r.objects }), root)

/-- ostree_repo_write_commit_with_time: persist a commit object (staged)
and return its revision id. -/
def write_commit_with_time (st : RepoState) (parent : Option String)
    (subject body : String) (metadata : List (String × MVal))
    (root : String) (timestamp : Int) : RepoState × String :=
  let c : CommitObj :=
    { parent := parent, subject := subject, body := body,
      metadata := metadata, root := root, timestamp := timestamp }
  let rev := commitId c
  (stagedMod st (fun r => { r with commits := (rev, c) :: r.commits }), rev)

/-- ostree_repo_transaction_set_ref: stage a ref update. -/
def transaction_set_ref (st : RepoState) (ref rev : String) : RepoState :=
  stagedMod st (fun r => { r with refs := setAssoc r.refs ref rev })

/-- ostree_repo_resolve_rev: look a ref up. -/
def resolve_rev (repo : OstreeRepo) (ref : String) : Except Err String :=
  match repo.refs.find? (fun e => e.1 == ref) with
  | some e => .ok e.2
  | none => .error (.gioError ("no such ref " ++ ref))

/-- ostree_repo_load_commit: fetch a commit object by revision. -/
def load_commit (repo : OstreeRepo) (rev : String) : Except Err CommitObj :=
  match repo.commits.find? (fun e => e.1 == rev) with
  | some e => .ok e.2
  | none => .error (.gioError ("no such commit " ++ rev))

/-! The import pipeline (import_layer / import_image). -/

/-- Merge one entry into the tree: replace the binding in place when the
path is already present, append otherwise. -/
def mergeEntry (t : Tree) (p c : String) : Tree :=
  if t.any (fun e => e.1 == p) then
    t.map (fun e => if e.1 == p then (p, c) else e)
  else t ++ [(p, c)]

/-- ostree_repo_write_directory_to_mtree: merge the extracted directory
into the mutable tree, later entries replacing same-path earlier ones
whole-entry (standard overlay last-writer-wins). -/
def write_directory_to_mtree (t : Tree) (entries : List (String × String)) : Tree :=
  entries.foldl (fun acc e => mergeEntry acc e.1 e.2) t

/-- Lookup in a merged tree. -/
def treeLookup (t : Tree) (p : String) : Option String :=
  (t.find? (fun e => e.1 == p)).map (fun e => e.2)

/-- Injected external-failure points inside the commit transaction; the
tar subprocess and the OSTree write and commit calls can each fail for
environmental reasons, which the model captures as an oracle. -/
structure IOFaults where
  extract : Option Err
  treeWrite : Option Err
  commitWrite : Option Err
  refUpdate : Option Err
  txnCommit : Option Err
  deriving Repr

/-- No injected faults. -/
def noFaults : IOFaults :=
  { extract := none, treeWrite := none, commitWrite := none,
    refUpdate := none, txnCommit := none }

/-- import_layer: extract the layer archive at path into a scratch
directory with tar (check=True) and merge it into the mutable tree.
A None path makes the subprocess invocation raise TypeError; a missing
or non-archive blob makes tar fail (CalledProcessError). -/
def import_layer (fs : FS) (faults : IOFaults) (mtree : Tree)
    (path : Option String) : Except Err Tree :=
  match path with
  | none => .error .typeError
  | some p =>
      match faults.extract with
      | some e => .error e
      | none =>
          match fsGet fs p with
          | some (.file (.archive entries)) =>
              .ok (write_directory_to_mtree mtree entries)
          | _ => .error .calledProcessError

/-- Resolve one manifest layer descriptor to the extracted entries of
its archive, as the loop body of import_image does. -/
def extract_layer (reg : Registry) (fs : FS) (faults : IOFaults)
    (layer : JVal) : Except Err (List (String × String)) := do
  let dj ← layer.getItem "digest"
  let d ← dj.asStr
  let path ← reg.path_for_blob d
  match path with
  | none => .error .typeError
  | some p =>
      match faults.extract with
      | some e => .error e
      | none =>
          match fsGet fs p with
          | some (.file (.archive entries)) => .ok entries
          | _ => .error .calledProcessError

/-- The layer loop of import_image: fold every manifest layer into the
mutable tree in manifest order. -/
def loopLayers (reg : Registry) (fs : FS) (faults : IOFaults)
    (mtree : Tree) : List JVal → Except Err Tree
  | [] => .ok mtree
  | layer :: rest => do
      let dj ← layer.getItem "digest"
      let d ← dj.asStr
      let path ← reg.path_for_blob d
      let mtree2 ← import_layer fs faults mtree path
      loopLayers reg fs faults mtree2 rest

/-- The label key namespace for commit metadata. -/
def metaKeyNamespace : String := "org.flatpak.commit-metadata."

/-- Strip the commit-metadata namespace from a label key. -/
def stripMetaKey (k : String) : String :=
  strDrop k metaKeyNamespace.data.length

/-- The builder loop over labels in import_image: for every label in the
commit-metadata namespace, base64-decode its value and add the stripped
key with the deserialized opaque payload, preserving label order. -/
def buildMeta : List (String × JVal) → Except Err (List (String × MVal))
  | [] => .ok []
  | e :: rest =>
      if strStartsWith e.1 metaKeyNamespace then do
        let v ← e.2.asStr
        let bytes ← b64decode v
        let tail ← buildMeta rest
        .ok ((stripMetaKey e.1, MVal.payload bytes) :: tail)
      else buildMeta rest

/-- Navigation of import_image down to the Labels mapping: load the
manifest blob, follow its config descriptor, load the config blob and
take config.config.Labels. -/
def load_config_labels (reg : Registry) (fs : FS) (digest : String) :
    Except Err (JVal × JVal × List (String × JVal)) := do
  let manifest ← reg.blobs_get_json fs digest
  let cfgdesc ← manifest.getItem "config"
  let cfgDigestJ ← cfgdesc.getItem "digest"
  let cfgDigest ← cfgDigestJ.asStr
  let config ← reg.blobs_get_json fs cfgDigest
  let inner ← config.getItem "config"
  let labelsJ ← inner.getItem "Labels"
  match labelsJ with
  | .obj entries => .ok (manifest, config, entries)
  | _ => .error .typeError

/-- The metadata construction of import_image: the decoded
commit-metadata labels, then the synthesized xa.alt-id entry (hash part
of the image digest), then the synthesized xa.diff-id entry (hash part
of the last rootfs diff id from the config). -/
def build_commit_metadata (labels : List (String × JVal)) (digest : String)
    (config : JVal) : Except Err (List (String × MVal)) := do
  let md ← buildMeta labels
  let (_, checksum) ← unpack2 (pySplitColon1 digest)
  let md1 := md ++ [("xa.alt-id", MVal.str checksum)]
  let rootfs ← config.getItem "rootfs"
  let diffIdsJ ← rootfs.getItem "diff_ids"
  let diffIds ← diffIdsJ.asArr
  let lastJ ← match diffIds.getLast? with
    | some v => .ok v
    | none => .error .indexError
  let lastDiff ← lastJ.asStr
  let (_, dchk) ← unpack2 (pySplitColon1 lastDiff)
  .ok (md1 ++ [("xa.diff-id", MVal.str dchk)])

/-- Everything import_image computes before opening the transaction. -/
structure Resolved where
  manifest : JVal
  ref : JVal
  parent : Option JVal
  timestamp : Int
  subject : JVal
  body : JVal
  metadata : List (String × MVal)
  deriving Repr

/-- The pre-transaction half of import_image: manifest and config
navigation, required-label extraction (KeyError names a missing label),
int() conversion of the timestamp, and metadata construction.  Label
values other than the timestamp are not type-checked here, exactly as in
the source, where they are only converted at the GI call sites inside
the transaction. -/
def resolve_image (reg : Registry) (fs : FS) (digest : String) :
    Except Err Resolved := do
  let (manifest, config, labels) ← load_config_labels reg fs digest
  let ref ← match pyDictGetJ labels "org.flatpak.ref" with
    | some v => .ok v
    | none => .error (.keyError "org.flatpak.ref")
  let parent := pyDictGetJ labels "org.flatpak.parent-commit"
  let tsJ ← match pyDictGetJ labels "org.flatpak.timestamp" with
    | some v => .ok v
    | none => .error (.keyError "org.flatpak.timestamp")
  let timestamp ← pyIntJ tsJ
  let subject ← match pyDictGetJ labels "org.flatpak.subject" with
    | some v => .ok v
    | none => .error (.keyError "org.flatpak.subject")
  let body ← match pyDictGetJ labels "org.flatpak.body" with
    | some v => .ok v
    | none => .error (.keyError "org.flatpak.body")
  let metadata ← build_commit_metadata labels digest config
  .ok { manifest := manifest, ref := ref, parent := parent,
        timestamp := timestamp, subject := subject, body := body,
        metadata := metadata }

/-- Observable events of a run: the log lines and the store-writing
actions of the driver and of import_image. -/
inductive Event where
  | foundExisting (img : String) (commit : String)
  | importing (img : String)
  | treeWritten (root : String)
  | commitWritten (rev : String)
  | refUpdated (ref : String) (rev : String)
  | txnCommitted
  | republish
  deriving Repr, DecidableEq

/-- GI string conversion at a call site taking a UTF-8 string argument:
TypeError unless the value is a str. -/
def giStr (v : JVal) : Except Err String :=
  v.asStr

/-- GI conversion for the nullable parent argument. -/
def giOptStr (v : Option JVal) : Except Err (Option String) :=
  match v with
  | none => .ok none
  | some (.str s) => .ok (some s)
  | some _ => .error .typeError

/-- The transaction body of import_image (the try block): build the
mutable tree from the manifest layers, write the tree, write the commit,
stage the ref update and commit the transaction.  Returns the state and
event trace reached at the point of any failure. -/
def import_txn (reg : Registry) (fs : FS) (faults : IOFaults)
    (r : Resolved) (st0 : RepoState) :
    Except Err String × RepoState × List Event :=
  match (r.manifest.getItem "layers").bind JVal.asArr with
  | .error e => (.error e, st0, [])
  | .ok layers =>
    match loopLayers reg fs faults [] layers with
    | .error e => (.error e, st0, [])
    | .ok mtree =>
      match faults.treeWrite with
      | some e => (.error e, st0, [])
      | none =>
        let p1 := write_mtree st0 mtree
        match giOptStr r.parent, giStr r.subject, giStr r.body with
        | .ok parent, .ok subject, .ok body =>
          (match faults.commitWrite with
           | some e => (.error e, p1.1, [.treeWritten p1.2])
           | none =>
             let p2 := write_commit_with_time p1.1 parent subject body
                         r.metadata p1.2 r.timestamp
             match giStr r.ref with
             | .error e => (.error e, p2.1, [.treeWritten p1.2, .commitWritten p2.2])
             | .ok ref =>
               match faults.refUpdate with
               | some e => (.error e, p2.1, [.treeWritten p1.2, .commitWritten p2.2])
               | none =>
                 let st3 := transaction_set_ref p2.1 ref p2.2
                 match faults.txnCommit with
                 | some e =>
                     (.error e, st3,
                      [.treeWritten p1.2, .commitWritten p2.2, .refUpdated ref p2.2])
                 | none =>
                   match commit_transaction st3 with
                   | .error e =>
                       (.error e, st3,
                        [.treeWritten p1.2, .commitWritten p2.2, .refUpdated ref p2.2])
                   | .ok st4 =>
                       (.ok p2.2, st4,
                        [.treeWritten p1.2, .commitWritten p2.2,
                         .refUpdated ref p2.2, .txnCommitted]))
        | .error e, _, _ => (.error e, p1.1, [.treeWritten p1.2])
        | _, .error e, _ => (.error e, p1.1, [.treeWritten p1.2])
        | _, _, .error e => (.error e, p1.1, [.treeWritten p1.2])

/-- import_image: resolve the manifest and config, build the metadata,
then open a transaction and run the try block; on any exception inside
the block the transaction is aborted and the exception re-raised. -/
def import_image (reg : Registry) (fs : FS) (faults : IOFaults)
    (st : RepoState) (digest : String) :
    Except Err String × RepoState × List Event :=
  match resolve_image reg fs digest with
  | .error e => (.error e, st, [])
  | .ok r =>
    let st1 := prepare_transaction st
    match import_txn reg fs faults r st1 with
    | (.ok rev, st2, evs) => (.ok rev, st2, evs)
    | (.error e, st2, evs) => (.error e, abort_transaction st2, evs)

/-! The dedup index (iter_commits) and the driver loop (main). -/

/-- g_variant_dict lookup of a string-typed value: the dictionary keeps
the LAST binding of each key of the underlying a(sv) metadata, and the
lookup is None when the entry is absent or not of type s. -/
def variant_dict_lookup_str (md : List (String × MVal)) (k : String) :
    Option String :=
  match (md.filter (fun e => e.1 == k)).getLast? with
  | some (_, .str s) => some s
  | _ => none

/-- iter_commits: for every ref of the repository, resolve its revision,
load the commit, and when its metadata carries a string xa.alt-id entry
yield the pair ("sha256:" + alt-id, revision). -/
def iter_commits (repo : OstreeRepo) :
    List (String × String) → Except Err (List (String × String))
  | [] => .ok []
  | (ref, _) :: rest => do
      let commit_id ← resolve_rev repo ref
      let c ← load_commit repo commit_id
      let tail ← iter_commits repo rest
      match variant_dict_lookup_str c.metadata "xa.alt-id" with
      | some s => .ok (("sha256:" ++ s, commit_id) :: tail)
      | none => .ok tail

/-- Python dict(pairs): later bindings override earlier ones. -/
def pyDict (l : List (String × String)) : List (String × String) :=
  l.foldl (fun acc kv => setAssoc acc kv.1 kv.2) []

/-- dict.get on a string dictionary. -/
def pyDictGetStr (d : List (String × String)) (k : String) : Option String :=
  (d.find? (fun e => e.1 == k)).map (fun e => e.2)

/-- The import loop of main: for every non-empty image digest in input
order, skip it when the dedup index has a truthy entry (logging the
existing commit), otherwise run import_image; an import failure
propagates and halts the remaining loop. -/
def run_loop (reg : Registry) (fs : FS) (faults : IOFaults)
    (existing : List (String × String)) (st : RepoState) :
    List String → Except Err Unit × RepoState × List Event
  | [] => (.ok (), st, [])
  | img :: rest =>
      match pyDictGetStr existing img with
      | some c =>
          if c ≠ "" then
            match run_loop reg fs faults existing st rest with
            | (res, st2, evs) => (res, st2, Event.foundExisting img c :: evs)
          else
            match import_image reg fs faults st img with
            | (.ok _, st2, evs) =>
                match run_loop reg fs faults existing st2 rest with
                | (res, st3, evs2) =>
                    (res, st3, Event.importing img :: evs ++ evs2)
            | (.error e, st2, evs) =>
                (.error e, st2, Event.importing img :: evs)
      | none =>
          match import_image reg fs faults st img with
          | (.ok _, st2, evs) =>
              match run_loop reg fs faults existing st2 rest with
              | (res, st3, evs2) =>
                  (res, st3, Event.importing img :: evs ++ evs2)
          | (.error e, st2, evs) =>
              (.error e, st2, Event.importing img :: evs)

/-- main, after argument parsing: split the input on newlines, open or
create the repository (the state is given), construct the Registry,
build the dedup index once with iter_commits, run the import loop over
the non-empty lines, and on reaching the end of the loop republish the
summary exactly once. -/
def run (regRoot : String) (fs : FS) (faults : IOFaults) (st : RepoState)
    (pkgs : String) : Except Err Unit × RepoState × List Event :=
  match registryNew regRoot fs with
  | .error e => (.error e, st, [])
  | .ok (reg, fs2) =>
    match iter_commits st.repo st.repo.refs with
    | .error e => (.error e, st, [])
    | .ok pairs =>
      let existing := pyDict pairs
      let images := (strSplit '\n' pkgs).filter (fun s => s ≠ "")
      match run_loop reg fs2 faults existing st images with
      | (.ok (), st2, evs) => (.ok (), st2, evs ++ [Event.republish])
      | (.error e, st2, evs) => (.error e, st2, evs)

/-! Concrete fixtures shared by witnesses: a small registry holding one
image (manifest mm, config cc, two layers), and an empty repository. -/

/-- Fixture manifest: config descriptor plus two layers. -/
def manifestX : JVal := .obj [
  ("config", .obj [("digest", .str "sha256:cc")]),
  ("layers", .arr [.obj [("digest", .str "sha256:l1")],
                   .obj [("digest", .str "sha256:l2")]])]

/-- Fixture config: the four required labels, one commit-metadata label
(base64 of "bar"), and two rootfs diff ids. -/
def configX : JVal := .obj [
  ("config", .obj [("Labels", .obj [
     ("org.flatpak.ref", .str "app/Test"),
     ("org.flatpak.timestamp", .str "7"),
     ("org.flatpak.subject", .str "subj"),
     ("org.flatpak.body", .str "bodytext"),
     ("org.flatpak.commit-metadata.xa.foo", .str "YmFy")])]),
  ("rootfs", .obj [("diff_ids", .arr [.str "sha256:d1", .str "sha256:d2"])])]

/-- Fixture registry filesystem. -/
def fsX : FS := [
  ("/", .dir),
  ("/reg", .dir),
  ("/reg/blobs", .dir),
  ("/reg/blobs/sha256", .dir),
  ("/reg/blobs/sha256/mm", .file (.json manifestX)),
  ("/reg/blobs/sha256/cc", .file (.json configX)),
  ("/reg/blobs/sha256/l1", .file (.archive [("a.txt", "v1"), ("b.txt", "b1")])),
  ("/reg/blobs/sha256/l2", .file (.archive [("a.txt", "v2")]))]

/-- Fixture registry value as constructed for root /reg. -/
def regX : Registry := { root := "/reg", blobs := [("sha256", "/reg/blobs/sha256")] }

/-- Fixture empty repository. -/
def st0 : RepoState := { repo := { refs := [], commits := [], objects := [] }, txn := none }

/-- Fixture manifest whose single layer blob is absent from the registry
(extraction fails inside the transaction). -/
def manifestY : JVal := .obj [
  ("config", .obj [("digest", .str "sha256:cc")]),
  ("layers", .arr [.obj [("digest", .str "sha256:missing")]])]

/-- Fixture filesystem with the broken manifest added. -/
def fsY : FS := ("/reg/blobs/sha256/my", .file (.json manifestY)) :: fsX

/-- Fixture trivial hashing and stat primitives. -/
def primsX : Prims := { sha256 := fun _ => "h", fsize := fun _ => 0 }

/-! Claim theorems. -/

/-- C6: constructing the Registry over a root that does not exist fails
with FileNotFoundError for root/oci-layout, because init writes the
layout marker into the root without ever creating the root directory;
with an existing root the construction succeeds (idempotent re-open).
The first conjunct contradicts the specified behavior of creating the
root and succeeding. -/
theorem registry_new_missing_root_fails :
    registryNew "/reg" [("/", FsNode.dir)] =
      .error (.fileNotFound "/reg/oci-layout") ∧
    registryNew "/reg" fsX = .ok (regX, fsX) := by
  constructor
  · rfl
  · rfl

/-- C7: blobs_add_json always raises TypeError whenever the store root
exists, because it passes the (fd, name) pair returned by
tempfile.mkstemp to open() instead of the file name; it never reaches
blobs_add_file and never returns a descriptor. -/
theorem blobs_add_json_raises_type_error :
    ∀ (prims : Prims) (reg : Registry) (fs : FS) (js : JVal) (mtype : String),
      fsGet fs reg.root = some FsNode.dir →
      Registry.blobs_add_json prims reg fs js mtype = .error .typeError := by
  intro prims reg fs js mtype hroot
  simp only [Registry.blobs_add_json, mkstemp, hroot]
  rfl

/-- Witness for C7 at the fixture registry. -/
theorem blobs_add_json_raises_type_error_witness :
    Registry.blobs_add_json primsX regX fsX (.str "x") "config" =
      .error .typeError :=
  blobs_add_json_raises_type_error primsX regX fsX (.str "x") "config" rfl

/-- C8: path_for_blob on a digest algorithm:hash returns None (the
embedding of the UnsupportedAlgorithm failure, never a path) when the
algorithm has no configured blob directory, and returns the blob
directory joined with the hash when it is configured. -/
theorem path_for_blob_algorithm_cases :
    ∀ (reg : Registry) (digest alg h : String),
      pySplitColon1 digest = [alg, h] →
      (reg.blobs.find? (fun e => e.1 == alg) = none →
        reg.path_for_blob digest = .ok none) ∧
      (∀ e, reg.blobs.find? (fun e2 => e2.1 == alg) = some e →
        reg.path_for_blob digest = .ok (some (joinpath e.2 h))) := by
  intro reg digest alg h hsplit
  constructor
  · intro hnone
    simp [Registry.path_for_blob, hsplit, unpack2, bind, Except.bind, hnone]
  · intro e he
    simp [Registry.path_for_blob, hsplit, unpack2, bind, Except.bind, he]

/-! Overlay-merge lemmas for C5. -/

/-- Last binding of a path in a directory entry list. -/
def lastLookup (es : List (String × String)) (p : String) : Option String :=
  (es.reverse.find? (fun e => e.1 == p)).map (fun e => e.2)

/-- Specification-level overlay lookup: the value of a path is the one
from the latest layer binding it. -/
def overlayLookup : List (List (String × String)) → String → Option String
  | [], _ => none
  | es :: ls, p =>
      match overlayLookup ls p with
      | some v => some v
      | none => lastLookup es p

/-- Replacing the bindings of one key does not change the lookup
predicate of any key. -/
theorem replace_pred_eq (p c q : String) :
    ((fun e : String × String => e.1 == q) ∘
      (fun e : String × String => if e.1 == p then (p, c) else e)) =
      (fun e : String × String => e.1 == q) := by
  funext e
  by_cases he : e.1 = p
  · simp [Function.comp, he]
  · simp [Function.comp, he]

/-- Replacing the bindings of one key does not change lookups of other
keys. -/
theorem treeLookup_replace_ne (t : Tree) (p c q : String) (h : ¬q = p) :
    treeLookup (t.map (fun e => if e.1 == p then (p, c) else e)) q =
      treeLookup t q := by
  simp only [treeLookup, List.find?_map, replace_pred_eq]
  cases hf : t.find? (fun e => e.1 == q) with
  | none => simp
  | some e =>
      have hpq : e.1 = q := by simpa using List.find?_some hf
      have hne : ¬(e.1 = p) := fun hx => h (hpq ▸ hx ▸ rfl)
      simp [hne]

/-- Merging one entry updates exactly that path. -/
theorem treeLookup_mergeEntry (t : Tree) (p c q : String) :
    treeLookup (mergeEntry t p c) q =
      if q = p then some c else treeLookup t q := by
  cases hany : t.any (fun e => e.1 == p) with
  | true =>
      have hme : mergeEntry t p c =
          t.map (fun e => if e.1 == p then (p, c) else e) := by
        simp [mergeEntry, hany]
      by_cases hq : q = p
      · subst hq
        obtain ⟨e, he, hpe⟩ := List.any_eq_true.mp hany
        rw [hme]
        simp only [treeLookup, List.find?_map, replace_pred_eq]
        cases hf : t.find? (fun e => e.1 == q) with
        | none =>
            have := List.find?_eq_none.mp hf e he
            simp [hpe] at this
        | some x =>
            have hx : x.1 = q := by simpa using List.find?_some hf
            simp [hx]
      · rw [hme, treeLookup_replace_ne t p c q hq]
        simp [hq]
  | false =>
      have hme : mergeEntry t p c = t ++ [(p, c)] := by
        simp only [mergeEntry, hany]
        rfl
      rw [hme]
      simp only [treeLookup, List.find?_append]
      by_cases hq : q = p
      · subst hq
        have hnone : t.find? (fun e => e.1 == q) = none := by
          apply List.find?_eq_none.mpr
          intro x hx
          have := List.any_eq_false.mp hany x hx
          simpa using this
        simp [hnone, List.find?, Option.or]
      · have hpq : (p == q) = false := by
          simp
          exact fun hx => hq hx.symm
        have hlast : List.find? (fun e => e.1 == q) [(p, c)] = none := by
          simp [List.find?, hpq]
        simp [hlast, hq]

/-- Peeling one directory entry off a last-binding lookup. -/
theorem lastLookup_cons (e : String × String) (es : List (String × String))
    (q : String) :
    lastLookup (e :: es) q =
      match lastLookup es q with
      | some v => some v
      | none => if e.1 == q then some e.2 else none := by
  simp only [lastLookup, List.reverse_cons, List.find?_append]
  cases h : (es.reverse.find? (fun x => x.1 == q)) with
  | none =>
      by_cases he : e.1 = q
      · simp [List.find?, he, Option.or]
      · have hbeq : (e.1 == q) = false := by simp [he]
        simp [List.find?, hbeq, Option.or]
  | some x => simp [Option.or]

/-- Merging one extracted directory into a tree realizes last-binding
lookup of that directory over the existing tree. -/
theorem treeLookup_wdm (es : List (String × String)) :
    ∀ (t : Tree) (q : String),
      treeLookup (write_directory_to_mtree t es) q =
        match lastLookup es q with
        | some v => some v
        | none => treeLookup t q := by
  induction es with
  | nil => intro t q; rfl
  | cons e es ih =>
      intro t q
      have step : write_directory_to_mtree t (e :: es) =
          write_directory_to_mtree (mergeEntry t e.1 e.2) es := rfl
      rw [step, ih, lastLookup_cons]
      cases h : lastLookup es q with
      | some v => simp
      | none =>
          rw [treeLookup_mergeEntry]
          by_cases hq : q = e.1
          · simp [hq]
          · have : ¬(e.1 = q) := fun hx => hq hx.symm
            simp [hq, this]

/-- Folding a sequence of extracted directories into a tree realizes the
overlay lookup over the initial tree. -/
theorem treeLookup_foldl_wdm (ls : List (List (String × String))) :
    ∀ (t : Tree) (q : String),
      treeLookup (ls.foldl write_directory_to_mtree t) q =
        match overlayLookup ls q with
        | some v => some v
        | none => treeLookup t q := by
  induction ls with
  | nil => intro t q; rfl
  | cons es ls ih =>
      intro t q
      have step : (es :: ls).foldl write_directory_to_mtree t =
          ls.foldl write_directory_to_mtree (write_directory_to_mtree t es) := rfl
      rw [step, ih, treeLookup_wdm]
      cases h : overlayLookup ls q with
      | some v => simp [overlayLookup, h]
      | none =>
          cases h2 : lastLookup es q with
          | some v => simp [overlayLookup, h, h2]
          | none => simp [overlayLookup, h, h2]

/-- A path bound in no layer is absent from the overlay. -/
theorem overlayLookup_none (ls : List (List (String × String))) (q : String) :
    (∀ j, lastLookup (ls.getD j []) q = none) → overlayLookup ls q = none := by
  induction ls with
  | nil => intro _; rfl
  | cons es ls ih =>
      intro h
      have h0 := h 0
      have htail := ih (fun j => h (j + 1))
      simp [List.getD] at h0
      simp [overlayLookup, htail, h0]

/-- The overlay takes a path from the latest layer binding it. -/
theorem overlayLookup_last (ls : List (List (String × String)))
    (q : String) :
    ∀ (i : Nat) (v : String),
      lastLookup (ls.getD i []) q = some v →
      (∀ j, i < j → lastLookup (ls.getD j []) q = none) →
      overlayLookup ls q = some v := by
  induction ls with
  | nil =>
      intro i v hv _
      simp [List.getD, lastLookup] at hv
  | cons es ls ih =>
      intro i v hv hafter
      cases i with
      | zero =>
          have h0 : lastLookup es q = some v := by simpa [List.getD] using hv
          have hnone : overlayLookup ls q = none := by
            apply overlayLookup_none
            intro j
            have := hafter (j + 1) (Nat.succ_pos j)
            simpa [List.getD] using this
          simp [overlayLookup, hnone, h0]
      | succ i =>
          have hv2 : lastLookup (ls.getD i []) q = some v := by
            simpa [List.getD] using hv
          have hafter2 : ∀ j, i < j → lastLookup (ls.getD j []) q = none := by
            intro j hj
            have := hafter (j + 1) (Nat.succ_lt_succ hj)
            simpa [List.getD] using this
          have := ih i v hv2 hafter2
          simp [overlayLookup, this]

/-- Inversion of a successful layer extraction. -/
theorem extract_layer_ok_inv (reg : Registry) (fs : FS) (faults : IOFaults)
    (l : JVal) (es : List (String × String)) :
    extract_layer reg fs faults l = .ok es →
    ∃ dj d p, l.getItem "digest" = .ok dj ∧ dj.asStr = .ok d ∧
      reg.path_for_blob d = .ok (some p) ∧ faults.extract = none ∧
      fsGet fs p = some (.file (.archive es)) := by
  intro hext
  cases h1 : l.getItem "digest" with
  | error e => simp [extract_layer, h1, bind, Except.bind] at hext
  | ok dj =>
    cases h2 : dj.asStr with
    | error e => simp [extract_layer, h1, h2, bind, Except.bind] at hext
    | ok d =>
      cases h3 : reg.path_for_blob d with
      | error e => simp [extract_layer, h1, h2, h3, bind, Except.bind] at hext
      | ok pOpt =>
        cases pOpt with
        | none => simp [extract_layer, h1, h2, h3, bind, Except.bind] at hext
        | some p =>
          cases h4 : faults.extract with
          | some e => simp [extract_layer, h1, h2, h3, h4, bind, Except.bind] at hext
          | none =>
            cases h5 : fsGet fs p with
            | none => simp [extract_layer, h1, h2, h3, h4, h5, bind, Except.bind] at hext
            | some node =>
              cases node with
              | dir => simp [extract_layer, h1, h2, h3, h4, h5, bind, Except.bind] at hext
              | file c =>
                cases c with
                | json v =>
                    simp [extract_layer, h1, h2, h3, h4, h5, bind, Except.bind] at hext
                | raw s =>
                    simp [extract_layer, h1, h2, h3, h4, h5, bind, Except.bind] at hext
                | archive entries =>
                    have hents : entries = es := by
                      simpa [extract_layer, h1, h2, h3, h4, h5, bind, Except.bind] using hext
                    refine ⟨dj, d, p, rfl, h2, h3, rfl, ?_⟩
                    rw [h5, hents]

/-- The layer loop computes the fold of the merges of the extracted
layer directories, in manifest order. -/
theorem loopLayers_forall2 (reg : Registry) (fs : FS) (faults : IOFaults) :
    ∀ (layers : List JVal) (ents : List (List (String × String))) (mtree : Tree),
      List.Forall₂ (fun l e => extract_layer reg fs faults l = .ok e) layers ents →
      loopLayers reg fs faults mtree layers =
        .ok (ents.foldl write_directory_to_mtree mtree) := by
  intro layers ents
  induction layers generalizing ents with
  | nil =>
      intro mtree hf
      cases hf
      rfl
  | cons l layers ih =>
      intro mtree hf
      cases hf with
      | @cons _ e _ ents2 hext htail =>
        obtain ⟨dj, d, p, h1, h2, h3, h4, h5⟩ :=
          extract_layer_ok_inv reg fs faults l e hext
        have step := ih ents2 (write_directory_to_mtree mtree e) htail
        simp [loopLayers, h1, h2, h3, h4, h5, import_layer, bind, Except.bind]
        exact step

/-- C5: the tree built by the layer loop from an ordered layer list is
the in-order overlay fold of the extracted layer directories, and in
that fold every path is taken (whole-entry) from the latest layer that
binds it. -/
theorem layer_overlay_last_wins :
    ∀ (reg : Registry) (fs : FS) (faults : IOFaults) (layers : List JVal)
      (ents : List (List (String × String))) (i : Nat) (p v : String),
      List.Forall₂ (fun l e => extract_layer reg fs faults l = .ok e) layers ents →
      loopLayers reg fs faults [] layers =
        .ok (ents.foldl write_directory_to_mtree []) ∧
      (lastLookup (ents.getD i []) p = some v →
       (∀ j, i < j → lastLookup (ents.getD j []) p = none) →
       treeLookup (ents.foldl write_directory_to_mtree []) p = some v) := by
  intro reg fs faults layers ents i p v hf
  constructor
  · exact loopLayers_forall2 reg fs faults layers ents [] hf
  · intro hv hafter
    rw [treeLookup_foldl_wdm]
    rw [overlayLookup_last ents p i v hv hafter]

/-- Witness for C5: two fixture layers both binding a.txt; the merged
tree carries the second layer version. -/
theorem layer_overlay_last_wins_witness :
    loopLayers regX fsX noFaults []
        [.obj [("digest", .str "sha256:l1")], .obj [("digest", .str "sha256:l2")]] =
      .ok [("a.txt", "v2"), ("b.txt", "b1")] ∧
    treeLookup [("a.txt", "v2"), ("b.txt", "b1")] "a.txt" = some "v2" := by
  have h := layer_overlay_last_wins regX fsX noFaults
    [.obj [("digest", .str "sha256:l1")], .obj [("digest", .str "sha256:l2")]]
    [[("a.txt", "v1"), ("b.txt", "b1")], [("a.txt", "v2")]] 1 "a.txt" "v2"
    (List.Forall₂.cons rfl (List.Forall₂.cons rfl List.Forall₂.nil))
  refine ⟨h.1, ?_⟩
  have h2 := h.2 rfl ?after
  · exact h2
  case after =>
    intro j hj
    match j with
    | 0 => omega
    | 1 => omega
    | n + 2 => rfl

/-! Metadata structure (C3) and missing labels (C4). -/

/-- Specification-shaped commit metadata (refinement target for C3):
the commit-metadata labels in label order, each key prefix-stripped and
each value base64-decoded into an opaque payload, followed by the two
synthesized entries under their actual keys xa.alt-id and xa.diff-id. -/
def spec_metadata (labels : List (String × JVal)) (imgHash diffHash : String) :
    List (String × MVal) :=
  (labels.filterMap (fun e =>
    if strStartsWith e.1 metaKeyNamespace then
      match e.2 with
      | .str v =>
          match b64decode v with
          | .ok bs => some (stripMetaKey e.1, MVal.payload bs)
          | .error _ => none
      | _ => none
    else none)) ++
  [("xa.alt-id", MVal.str imgHash), ("xa.diff-id", MVal.str diffHash)]

/-- A successful metadata builder loop produces exactly the decoded
commit-metadata labels in order. -/
theorem buildMeta_ok_eq :
    ∀ (labels : List (String × JVal)) (md : List (String × MVal)),
      buildMeta labels = .ok md →
      md = labels.filterMap (fun e =>
        if strStartsWith e.1 metaKeyNamespace then
          match e.2 with
          | .str v =>
              match b64decode v with
              | .ok bs => some (stripMetaKey e.1, MVal.payload bs)
              | .error _ => none
          | _ => none
        else none) := by
  intro labels
  induction labels with
  | nil =>
      intro md h
      simp [buildMeta] at h
      simp [h]
  | cons e rest ih =>
      intro md h
      cases hpre : strStartsWith e.1 metaKeyNamespace with
      | false =>
          rw [buildMeta, if_neg (by simp [hpre])] at h
          simp [List.filterMap, hpre, ih md h]
      | true =>
          rw [buildMeta, if_pos (by simp [hpre])] at h
          cases hv : e.2 with
          | str v =>
              cases hdec : b64decode v with
              | error er => simp [hv, JVal.asStr, hdec, bind, Except.bind] at h
              | ok bs =>
                  cases htail : buildMeta rest with
                  | error er =>
                      simp [hv, JVal.asStr, hdec, htail, bind, Except.bind] at h
                  | ok tail =>
                      have hmd : md = (stripMetaKey e.1, MVal.payload bs) :: tail := by
                        simpa [hv, JVal.asStr, hdec, htail, bind, Except.bind] using h.symm
                      simp [List.filterMap, hpre, hv, hdec, hmd, ih tail htail]
          | num n => simp [hv, JVal.asStr, bind, Except.bind] at h
          | arr xs => simp [hv, JVal.asStr, bind, Except.bind] at h
          | obj o => simp [hv, JVal.asStr, bind, Except.bind] at h

/-- C3 (amended): a successfully built commit metadata mapping is the
decoded prefix-stripped commit-metadata labels followed by the
synthesized entries keyed xa.alt-id (hash part of the image digest) and
xa.diff-id (hash part of the last rootfs diff id). -/
theorem commit_metadata_structure :
    ∀ (labels : List (String × JVal)) (digest : String) (config rootfs : JVal)
      (md : List (String × MVal)) (a h b dh lastd : String) (diffs : List JVal),
      pySplitColon1 digest = [a, h] →
      config.getItem "rootfs" = .ok rootfs →
      rootfs.getItem "diff_ids" = .ok (JVal.arr diffs) →
      diffs.getLast? = some (JVal.str lastd) →
      pySplitColon1 lastd = [b, dh] →
      build_commit_metadata labels digest config = .ok md →
      md = spec_metadata labels h dh := by
  intro labels digest config rootfs md a h b dh lastd diffs
  intro hsplit hroot hdiff hlast hsplit2 hb
  cases hbm : buildMeta labels with
  | error er => simp [build_commit_metadata, hbm, bind, Except.bind] at hb
  | ok pre =>
      have hmd : md = (pre ++ [("xa.alt-id", MVal.str h)]) ++
          [("xa.diff-id", MVal.str dh)] := by
        simpa [build_commit_metadata, hbm, hsplit, unpack2, hroot, hdiff,
               JVal.asArr, hlast, JVal.asStr, hsplit2, bind, Except.bind]
          using hb.symm
      rw [hmd, buildMeta_ok_eq labels pre hbm]
      simp [spec_metadata]

/-- Counterexample to C3 as stated: on the fixture image the written
metadata keys are xa.alt-id and xa.diff-id; no entry is keyed alt-id or
diff-id. -/
theorem metadata_key_names_counterexample :
    (resolve_image regX fsX "sha256:mm").toOption.map Resolved.metadata =
      some [("xa.foo", MVal.payload [98, 97, 114]),
            ("xa.alt-id", MVal.str "mm"), ("xa.diff-id", MVal.str "d2")] ∧
    ([("xa.foo", MVal.payload [98, 97, 114]),
      ("xa.alt-id", MVal.str "mm"), ("xa.diff-id", MVal.str "d2")].all
        (fun e => !(e.1 == "alt-id") && !(e.1 == "diff-id"))) = true := by
  constructor
  · rfl
  · rfl

/-- Witness for C3 (amended) on the fixture config. -/
theorem commit_metadata_structure_witness :
    build_commit_metadata
        [("org.flatpak.commit-metadata.xa.foo", .str "YmFy")]
        "sha256:mm" configX =
      .ok (spec_metadata
        [("org.flatpak.commit-metadata.xa.foo", .str "YmFy")] "mm" "d2") := by
  have h := commit_metadata_structure
    [("org.flatpak.commit-metadata.xa.foo", .str "YmFy")]
    "sha256:mm" configX (.obj [("diff_ids", .arr [.str "sha256:d1", .str "sha256:d2"])])
    [("xa.foo", MVal.payload [98, 97, 114]),
     ("xa.alt-id", MVal.str "mm"), ("xa.diff-id", MVal.str "d2")]
    "sha256" "mm" "sha256" "d2" "sha256:d2" [.str "sha256:d1", .str "sha256:d2"]
    rfl rfl rfl rfl rfl rfl
  rw [← h]
  rfl

/-- The required-label list, in the order the source reads them. -/
def required_labels : List String :=
  ["org.flatpak.ref", "org.flatpak.timestamp", "org.flatpak.subject",
   "org.flatpak.body"]

/-- C4: when the Labels mapping lacks a required label (the first such
in read order; a present timestamp is assumed convertible), the import
fails with the KeyError naming that label, before the transaction is
opened, leaving the repository value untouched (in particular its ref
list). -/
theorem missing_label_fails :
    ∀ (reg : Registry) (fs : FS) (faults : IOFaults) (st : RepoState)
      (digest : String) (m cfg : JVal) (labels : List (String × JVal))
      (k : String),
      load_config_labels reg fs digest = .ok (m, cfg, labels) →
      (∀ v, pyDictGetJ labels "org.flatpak.timestamp" = some v →
        ∃ n, pyIntJ v = .ok n) →
      required_labels.find? (fun r => (pyDictGetJ labels r).isNone) = some k →
      pyDictGetJ labels k = none ∧
      import_image reg fs faults st digest = (.error (.keyError k), st, []) := by
  intro reg fs faults st digest m cfg labels k hload hts hfind
  cases h1 : pyDictGetJ labels "org.flatpak.ref" with
  | none =>
      have hk : k = "org.flatpak.ref" := by
        simp [required_labels, List.find?, h1] at hfind
        exact hfind.symm
      subst hk
      refine ⟨h1, ?_⟩
      simp [import_image, resolve_image, hload, h1, bind, Except.bind]
  | some rv =>
      cases h2 : pyDictGetJ labels "org.flatpak.timestamp" with
      | none =>
          have hk : k = "org.flatpak.timestamp" := by
            simp [required_labels, List.find?, h1, h2] at hfind
            exact hfind.symm
          subst hk
          refine ⟨h2, ?_⟩
          simp [import_image, resolve_image, hload, h1, h2, bind, Except.bind]
      | some tv =>
          obtain ⟨n, hn⟩ := hts tv h2
          cases h3 : pyDictGetJ labels "org.flatpak.subject" with
          | none =>
              have hk : k = "org.flatpak.subject" := by
                simp [required_labels, List.find?, h1, h2, h3] at hfind
                exact hfind.symm
              subst hk
              refine ⟨h3, ?_⟩
              simp [import_image, resolve_image, hload, h1, h2, hn, h3,
                    bind, Except.bind]
          | some sv =>
              cases h4 : pyDictGetJ labels "org.flatpak.body" with
              | none =>
                  have hk : k = "org.flatpak.body" := by
                    simp [required_labels, List.find?, h1, h2, h3, h4] at hfind
                    exact hfind.symm
                  subst hk
                  refine ⟨h4, ?_⟩
                  simp [import_image, resolve_image, hload, h1, h2, hn, h3, h4,
                        bind, Except.bind]
              | some bv =>
                  simp [required_labels, List.find?, h1, h2, h3, h4] at hfind

/-- Fixture config lacking the subject label. -/
def configZ : JVal := .obj [
  ("config", .obj [("Labels", .obj [
     ("org.flatpak.ref", .str "app/Test"),
     ("org.flatpak.timestamp", .str "7"),
     ("org.flatpak.body", .str "bodytext")])]),
  ("rootfs", .obj [("diff_ids", .arr [.str "sha256:d1"])])]

/-- Fixture registry filesystem for the missing-label scenario. -/
def fsZ : FS := [
  ("/", .dir),
  ("/reg", .dir),
  ("/reg/blobs", .dir),
  ("/reg/blobs/sha256", .dir),
  ("/reg/blobs/sha256/mz", .file (.json (.obj [
      ("config", .obj [("digest", .str "sha256:cz")]),
      ("layers", .arr [])]))),
  ("/reg/blobs/sha256/cz", .file (.json configZ))]

/-- Witness for C4: a config without org.flatpak.subject makes the
importer fail with that KeyError and leaves the repository untouched. -/
theorem missing_label_fails_witness :
    pyDictGetJ
        [("org.flatpak.ref", .str "app/Test"),
         ("org.flatpak.timestamp", .str "7"),
         ("org.flatpak.body", .str "bodytext")] "org.flatpak.subject" = none ∧
    import_image regX fsZ noFaults st0 "sha256:mz" =
      (.error (.keyError "org.flatpak.subject"), st0, []) := by
  refine missing_label_fails regX fsZ noFaults st0 "sha256:mz"
    (.obj [("config", .obj [("digest", .str "sha256:cz")]), ("layers", .arr [])])
    configZ
    [("org.flatpak.ref", .str "app/Test"),
     ("org.flatpak.timestamp", .str "7"),
     ("org.flatpak.body", .str "bodytext")]
    "org.flatpak.subject" rfl ?_ rfl
  intro v hv
  rw [show pyDictGetJ
      [("org.flatpak.ref", JVal.str "app/Test"),
       ("org.flatpak.timestamp", JVal.str "7"),
       ("org.flatpak.body", JVal.str "bodytext")] "org.flatpak.timestamp" =
      some (JVal.str "7") from rfl] at hv
  cases hv
  exact ⟨7, rfl⟩

/-! Transaction atomicity (C1). -/

/-- A staged write while a transaction is active leaves the committed
repository untouched and keeps the transaction active. -/
theorem stagedMod_preserve (st : RepoState) (f : OstreeRepo → OstreeRepo)
    (h : st.txn.isSome) :
    (stagedMod st f).repo = st.repo ∧ (stagedMod st f).txn.isSome := by
  cases hx : st.txn with
  | none => rw [hx] at h; simp at h
  | some x => simp [stagedMod, hx]

/-- write_mtree leaves the committed repository untouched while a
transaction is active. -/
theorem write_mtree_preserve (st : RepoState) (t : Tree)
    (h : st.txn.isSome) :
    ((write_mtree st t).1).repo = st.repo ∧ ((write_mtree st t).1).txn.isSome :=
  stagedMod_preserve st _ h

/-- write_commit_with_time leaves the committed repository untouched
while a transaction is active. -/
theorem write_commit_preserve (st : RepoState) (parent : Option String)
    (subject body : String) (md : List (String × MVal)) (root : String)
    (ts : Int) (h : st.txn.isSome) :
    ((write_commit_with_time st parent subject body md root ts).1).repo = st.repo ∧
    ((write_commit_with_time st parent subject body md root ts).1).txn.isSome :=
  stagedMod_preserve st _ h

/-- transaction_set_ref leaves the committed repository untouched while
a transaction is active. -/
theorem set_ref_preserve (st : RepoState) (ref rev : String)
    (h : st.txn.isSome) :
    (transaction_set_ref st ref rev).repo = st.repo ∧
    (transaction_set_ref st ref rev).txn.isSome :=
  stagedMod_preserve st _ h

/-- Any failing prefix of the transaction body leaves the committed
repository unchanged (all its writes were staged). -/
theorem import_txn_error_repo :
    ∀ (reg : Registry) (fs : FS) (faults : IOFaults) (r : Resolved)
      (st1 : RepoState) (e : Err),
      st1.txn.isSome →
      (import_txn reg fs faults r st1).1 = .error e →
      (import_txn reg fs faults r st1).2.1.repo = st1.repo := by
  intro reg fs faults r st1 e htxn herr
  cases hl : (r.manifest.getItem "layers").bind JVal.asArr with
  | error e2 => simp [import_txn, hl]
  | ok layers =>
  cases hll : loopLayers reg fs faults [] layers with
  | error e2 => simp [import_txn, hl, hll]
  | ok mtree =>
  cases htw : faults.treeWrite with
  | some e2 => simp [import_txn, hl, hll, htw]
  | none =>
  have h1 := write_mtree_preserve st1 mtree htxn
  cases hpar : giOptStr r.parent with
  | error e2 => simpa [import_txn, hl, hll, htw, hpar] using h1.1
  | ok parent =>
  cases hsub : giStr r.subject with
  | error e2 => simpa [import_txn, hl, hll, htw, hpar, hsub] using h1.1
  | ok subject =>
  cases hbody : giStr r.body with
  | error e2 => simpa [import_txn, hl, hll, htw, hpar, hsub, hbody] using h1.1
  | ok body =>
  cases hcw : faults.commitWrite with
  | some e2 => simpa [import_txn, hl, hll, htw, hpar, hsub, hbody, hcw] using h1.1
  | none =>
  have h2 := write_commit_preserve (write_mtree st1 mtree).1 parent subject body
    r.metadata (write_mtree st1 mtree).2 r.timestamp h1.2
  have h2r : ((write_commit_with_time (write_mtree st1 mtree).1 parent subject
      body r.metadata (write_mtree st1 mtree).2 r.timestamp).1).repo = st1.repo := by
    rw [h2.1, h1.1]
  cases href : giStr r.ref with
  | error e2 =>
      simpa [import_txn, hl, hll, htw, hpar, hsub, hbody, hcw, href] using h2r
  | ok ref =>
  cases hru : faults.refUpdate with
  | some e2 =>
      simpa [import_txn, hl, hll, htw, hpar, hsub, hbody, hcw, href, hru] using h2r
  | none =>
  have h3 := set_ref_preserve (write_commit_with_time (write_mtree st1 mtree).1
      parent subject body r.metadata (write_mtree st1 mtree).2 r.timestamp).1
    ref
    (write_commit_with_time (write_mtree st1 mtree).1 parent subject body
      r.metadata (write_mtree st1 mtree).2 r.timestamp).2 h2.2
  have h3r : (transaction_set_ref (write_commit_with_time (write_mtree st1 mtree).1
      parent subject body r.metadata (write_mtree st1 mtree).2 r.timestamp).1 ref
      (write_commit_with_time (write_mtree st1 mtree).1 parent subject body
        r.metadata (write_mtree st1 mtree).2 r.timestamp).2).repo = st1.repo := by
    rw [h3.1]
    exact h2r
  cases htc : faults.txnCommit with
  | some e2 =>
      simpa [import_txn, hl, hll, htw, hpar, hsub, hbody, hcw, href, hru, htc]
        using h3r
  | none =>
  cases hct : commit_transaction (transaction_set_ref (write_commit_with_time
      (write_mtree st1 mtree).1 parent subject body r.metadata
      (write_mtree st1 mtree).2 r.timestamp).1 ref
      (write_commit_with_time (write_mtree st1 mtree).1 parent subject body
        r.metadata (write_mtree st1 mtree).2 r.timestamp).2) with
  | error e2 =>
      simpa [import_txn, hl, hll, htw, hpar, hsub, hbody, hcw, href, hru, htc,
             hct] using h3r
  | ok st4 =>
      exfalso
      simp [import_txn, hl, hll, htw, hpar, hsub, hbody, hcw, href, hru, htc,
            hct] at herr

/-- C1: whenever import_image fails — whether before the transaction or
at any point inside it (layer extraction, tree write, commit write, ref
update, transaction commit; the fault oracle covers environmental
failures of each) — the returned state carries the caller repository
unchanged and no open transaction: the abort ran before the exception
propagated and nothing staged became observable. -/
theorem import_image_aborts_on_error :
    ∀ (reg : Registry) (fs : FS) (faults : IOFaults) (st : RepoState)
      (digest : String) (e : Err),
      st.txn = none →
      (import_image reg fs faults st digest).1 = .error e →
      (import_image reg fs faults st digest).2.1.repo = st.repo ∧
      (import_image reg fs faults st digest).2.1.txn = none := by
  intro reg fs faults st digest e htxn herr
  cases hres : resolve_image reg fs digest with
  | error e2 => simp [import_image, hres, htxn]
  | ok r =>
      have hsome : (prepare_transaction st).txn.isSome := by
        simp [prepare_transaction]
      cases hti : import_txn reg fs faults r (prepare_transaction st) with
      | mk res rest =>
        cases rest with
        | mk st2 evs =>
          cases res with
          | ok rev => simp [import_image, hres, hti] at herr
          | error e2 =>
              have hrepo : st2.repo = st.repo := by
                have := import_txn_error_repo reg fs faults r
                  (prepare_transaction st) e2 hsome (by rw [hti])
                rw [hti] at this
                simpa [prepare_transaction] using this
              simp [import_image, hres, hti, abort_transaction, hrepo]

/-- Witness for C1: the fixture import whose layer blob is missing fails
inside the transaction and leaves the empty repository unchanged with no
transaction open. -/
theorem import_image_aborts_on_error_witness :
    (import_image regX fsY noFaults st0 "sha256:my").2.1.repo = st0.repo ∧
    (import_image regX fsY noFaults st0 "sha256:my").2.1.txn = none :=
  import_image_aborts_on_error regX fsY noFaults st0 "sha256:my"
    .calledProcessError rfl rfl

/-! Association-list and dedup-index lemmas for the driver claims. -/

/-- find? over the in-place replacement of one key. -/
theorem find?_map_replace (l : List (String × String)) (k v : String) :
    (l.map (fun e => if e.1 == k then (k, v) else e)).find? (fun e => e.1 == k) =
      if l.any (fun e => e.1 == k) then some (k, v) else none := by
  induction l with
  | nil => simp [List.find?]
  | cons a t ih =>
      by_cases ha : a.1 = k
      · simp only [List.map_cons]
        rw [List.find?_cons_of_pos]
        · simp [List.any_cons, ha]
        · simp [ha]
      · simp only [List.map_cons]
        rw [List.find?_cons_of_neg]
        · rw [ih]
          have hbeq : (a.1 == k) = false := by simp [ha]
          rw [List.any_cons, hbeq, Bool.false_or]
        · simp [ha]

/-- setAssoc binds the updated key to the new value (first lookup). -/
theorem setAssoc_self_find (l : List (String × String)) (k v : String) :
    (setAssoc l k v).find? (fun e => e.1 == k) = some (k, v) := by
  cases hany : l.any (fun e => e.1 == k) with
  | true =>
      simp only [setAssoc, hany, if_pos]
      rw [find?_map_replace, if_pos hany]
  | false =>
      simp only [setAssoc, hany]
      rw [if_neg (by simp)]
      rw [List.find?_append]
      have hnone : l.find? (fun e => e.1 == k) = none := by
        apply List.find?_eq_none.mpr
        intro x hx
        have := List.any_eq_false.mp hany x hx
        simpa using this
      simp [hnone, List.find?]

/-- Members of setAssoc are old members or the new binding. -/
theorem setAssoc_mem (l : List (String × String)) (k v : String)
    (p : String × String) :
    p ∈ setAssoc l k v → p ∈ l ∨ p = (k, v) := by
  intro hp
  by_cases hany : l.any (fun e => e.1 == k) = true
  · simp only [setAssoc, hany, if_pos] at hp
    obtain ⟨e, he, hfe⟩ := List.mem_map.mp hp
    by_cases hek : e.1 = k
    · right
      rw [← hfe]
      simp [hek]
    · left
      rw [← hfe]
      simpa [hek] using he
  · simp only [setAssoc, hany] at hp
    rw [if_neg (by simpa using hany)] at hp
    rcases List.mem_append.mp hp with h | h
    · exact Or.inl h
    · right
      simpa using h

/-- The new binding is a member of setAssoc. -/
theorem setAssoc_mem_self (l : List (String × String)) (k v : String) :
    (k, v) ∈ setAssoc l k v := by
  have := setAssoc_self_find l k v
  exact List.mem_of_find?_eq_some this

/-- Members of the dictionary built by dict() are members of the input
pair list or of the accumulator. -/
theorem pyDict_foldl_mem :
    ∀ (l acc : List (String × String)) (p : String × String),
      p ∈ l.foldl (fun a kv => setAssoc a kv.1 kv.2) acc → p ∈ acc ∨ p ∈ l := by
  intro l
  induction l with
  | nil => intro acc p hp; exact Or.inl hp
  | cons kv t ih =>
      intro acc p hp
      rcases ih (setAssoc acc kv.1 kv.2) p hp with h | h
      · rcases setAssoc_mem acc kv.1 kv.2 p h with h2 | h2
        · exact Or.inl h2
        · right
          rw [h2]
          exact List.mem_cons_self kv t
      · exact Or.inr (List.mem_cons_of_mem kv h)

/-- An existing binding of a different key survives setAssoc. -/
theorem mem_setAssoc_of_mem_ne (l : List (String × String)) (k v : String)
    (e : String × String) (hek : ¬e.1 = k) (he : e ∈ l) :
    e ∈ setAssoc l k v := by
  by_cases hany : l.any (fun x => x.1 == k) = true
  · simp only [setAssoc, hany, if_pos]
    apply List.mem_map.mpr
    exact ⟨e, he, by simp [hek]⟩
  · simp only [setAssoc, hany]
    rw [if_neg (by simpa using hany)]
    exact List.mem_append.mpr (Or.inl he)

/-- setAssoc key membership. -/
theorem setAssoc_any (l : List (String × String)) (k v k2 : String) :
    (setAssoc l k v).any (fun e => e.1 == k2) =
      (l.any (fun e => e.1 == k2) || (k == k2)) := by
  by_cases hk2 : k = k2
  · subst hk2
    have hmem := setAssoc_mem_self l k v
    have hlhs : (setAssoc l k v).any (fun e => e.1 == k) = true :=
      List.any_eq_true.mpr ⟨(k, v), hmem, by simp⟩
    simp [hlhs]
  · have hbeq : (k == k2) = false := by simp [hk2]
    rw [hbeq, Bool.or_false]
    cases h2 : l.any (fun e => e.1 == k2) with
    | true =>
        obtain ⟨e, he, hpe⟩ := List.any_eq_true.mp h2
        have hek2 : e.1 = k2 := by simpa using hpe
        have hekne : ¬e.1 = k := by
          rw [hek2]
          exact fun hx => hk2 hx.symm
        exact List.any_eq_true.mpr
          ⟨e, mem_setAssoc_of_mem_ne l k v e hekne he, hpe⟩
    | false =>
        apply List.any_eq_false.mpr
        intro e he
        rcases setAssoc_mem l k v e he with hmem | hmem
        · have := List.any_eq_false.mp h2 e hmem
          simpa using this
        · rw [hmem]
          simpa using hk2

/-- Key membership of the built dictionary equals key membership of the
input pair list joined with the accumulator. -/
theorem pyDict_foldl_any :
    ∀ (l acc : List (String × String)) (k : String),
      (l.foldl (fun a kv => setAssoc a kv.1 kv.2) acc).any (fun e => e.1 == k) =
        (acc.any (fun e => e.1 == k) || l.any (fun e => e.1 == k)) := by
  intro l
  induction l with
  | nil => intro acc k; simp
  | cons kv t ih =>
      intro acc k
      have := ih (setAssoc acc kv.1 kv.2) k
      rw [List.foldl_cons, this, setAssoc_any]
      cases h1 : acc.any (fun e => e.1 == k) <;>
        cases h2 : (kv.1 == k) <;> simp [List.any_cons, h2]

/-- A key present in the pair list is found in the built dictionary,
with a value drawn from the pair list. -/
theorem pyDict_get_of_mem (pairs : List (String × String)) (k v0 : String)
    (hmem : (k, v0) ∈ pairs) :
    ∃ v, pyDictGetStr (pyDict pairs) k = some v ∧ (k, v) ∈ pairs := by
  have hany : (pyDict pairs).any (fun e => e.1 == k) = true := by
    rw [pyDict, pyDict_foldl_any]
    apply Bool.or_eq_true_iff.mpr
    right
    exact List.any_eq_true.mpr ⟨(k, v0), hmem, by simp⟩
  have hex : ∃ x ∈ pyDict pairs, (fun e : String × String => e.1 == k) x :=
    List.any_eq_true.mp hany
  have hsome : ((pyDict pairs).find? (fun e => e.1 == k)).isSome :=
    List.find?_isSome.mpr hex
  obtain ⟨e, hfind⟩ := Option.isSome_iff_exists.mp hsome
  have hek : e.1 = k := by simpa using List.find?_some hfind
  have hmem2 : e ∈ pyDict pairs := List.mem_of_find?_eq_some hfind
  have hmem3 : e ∈ pairs := by
    rcases pyDict_foldl_mem pairs [] e hmem2 with h | h
    · simp at h
    · exact h
  refine ⟨e.2, ?_, ?_⟩
  · simp [pyDictGetStr, hfind]
  · have : e = (k, e.2) := by
      rw [← hek]
    rw [← this]
    exact hmem3

/-- Every ref points at a commit object present in the store. -/
def Consistent (repo : OstreeRepo) : Prop :=
  ∀ p ∈ repo.refs, (repo.commits.find? (fun q => q.1 == p.2)).isSome

/-- Ref targets are non-empty strings (checksums). -/
def RefsNonEmpty (repo : OstreeRepo) : Prop :=
  ∀ p ∈ repo.refs, p.2 ≠ ""

/-- Over a consistent repository, iter_commits succeeds, and every
produced revision is the target of some ref. -/
theorem iter_commits_ok (repo : OstreeRepo) (hc : Consistent repo) :
    ∀ l, (∀ p ∈ l, p ∈ repo.refs) →
      ∃ pairs, iter_commits repo l = .ok pairs ∧
        ∀ q ∈ pairs, ∃ p ∈ repo.refs, q.2 = p.2 := by
  intro l
  induction l with
  | nil => exact fun _ => ⟨[], rfl, by simp⟩
  | cons p rest ih =>
      intro hsub
      have hp : p ∈ repo.refs := hsub p (List.mem_cons_self p rest)
      have hsomee : (repo.refs.find? (fun x => x.1 == p.1)).isSome :=
        List.find?_isSome.mpr ⟨p, hp, by simp⟩
      obtain ⟨e, he⟩ := Option.isSome_iff_exists.mp hsomee
      have hemem : e ∈ repo.refs := List.mem_of_find?_eq_some he
      obtain ⟨ec, hec⟩ := Option.isSome_iff_exists.mp (hc e hemem)
      obtain ⟨tail, htail, htailprop⟩ :=
        ih (fun q hq => hsub q (List.mem_cons_of_mem p hq))
      cases p with
      | mk ref x =>
        cases hlook : variant_dict_lookup_str ec.2.metadata "xa.alt-id" with
        | some s =>
            refine ⟨("sha256:" ++ s, e.2) :: tail, ?_, ?_⟩
            · simp [iter_commits, resolve_rev, he, load_commit, hec, htail,
                    hlook, bind, Except.bind]
            · intro q hq
              rcases List.mem_cons.mp hq with rfl | hq2
              · exact ⟨e, hemem, rfl⟩
              · exact htailprop q hq2
        | none =>
            refine ⟨tail, ?_, htailprop⟩
            simp [iter_commits, resolve_rev, he, load_commit, hec, htail,
                  hlook, bind, Except.bind]

/-- A ref whose resolved commit carries a string xa.alt-id entry
contributes its pair to the dedup scan. -/
theorem iter_commits_mem (repo : OstreeRepo) :
    ∀ (l pairs : List (String × String)) (rf x rev h : String) (c : CommitObj),
      iter_commits repo l = .ok pairs →
      (rf, x) ∈ l →
      resolve_rev repo rf = .ok rev →
      load_commit repo rev = .ok c →
      variant_dict_lookup_str c.metadata "xa.alt-id" = some h →
      ("sha256:" ++ h, rev) ∈ pairs := by
  intro l
  induction l with
  | nil =>
      intro pairs rf x rev h c _ hmem
      simp at hmem
  | cons p rest ih =>
      intro pairs rf x rev h c hiter hmem hres hload hlook
      cases p with
      | mk ref0 x0 =>
      cases hres0 : resolve_rev repo ref0 with
      | error e => simp [iter_commits, hres0, bind, Except.bind] at hiter
      | ok cid0 =>
      cases hload0 : load_commit repo cid0 with
      | error e => simp [iter_commits, hres0, hload0, bind, Except.bind] at hiter
      | ok c0 =>
      cases htail : iter_commits repo rest with
      | error e =>
          simp [iter_commits, hres0, hload0, htail, bind, Except.bind] at hiter
      | ok tail =>
      rcases List.mem_cons.mp hmem with heq | hmem2
      · have href : ref0 = rf := by
          have := congrArg Prod.fst heq
          exact this.symm
        subst href
        have hcid : cid0 = rev := by
          rw [hres] at hres0
          injection hres0.symm
        have hc0 : c0 = c := by
          rw [hcid, hload] at hload0
          injection hload0.symm
        have hlook0 : variant_dict_lookup_str c0.metadata "xa.alt-id" = some h := by
          rw [hc0]
          exact hlook
        have hpairs : pairs = ("sha256:" ++ h, cid0) :: tail := by
          simpa [iter_commits, hres0, hload0, htail, hlook0, bind, Except.bind]
            using hiter.symm
        rw [hpairs, ← hcid]
        exact List.mem_cons_self _ _
      · have htailmem := ih tail rf x rev h c htail hmem2 hres hload hlook
        cases hlook0 : variant_dict_lookup_str c0.metadata "xa.alt-id" with
        | some s =>
            have hpairs : pairs = ("sha256:" ++ s, cid0) :: tail := by
              simpa [iter_commits, hres0, hload0, htail, hlook0, bind,
                     Except.bind] using hiter.symm
            rw [hpairs]
            exact List.mem_cons_of_mem _ htailmem
        | none =>
            have hpairs : pairs = tail := by
              simpa [iter_commits, hres0, hload0, htail, hlook0, bind,
                     Except.bind] using hiter.symm
            rw [hpairs]
            exact htailmem

/-- Commit ids derived from commit content are never empty. -/
theorem commitId_ne_empty (c : CommitObj) : commitId c ≠ "" := by
  intro h
  have hlen := congrArg String.length h
  simp only [commitId, String.length_append] at hlen
  have h7 : ("commit:" : String).length = 7 := rfl
  have h0 : ("" : String).length = 0 := rfl
  omega

/-- Importing a commit and repointing one ref preserves consistency. -/
theorem consistent_after_import (repo : OstreeRepo) (rf rev : String)
    (c : CommitObj) (trid : String) (t : Tree) (hc : Consistent repo) :
    Consistent { refs := setAssoc repo.refs rf rev,
                 commits := (rev, c) :: repo.commits,
                 objects := (trid, t) :: repo.objects } := by
  intro p hp
  have hp2 : p ∈ setAssoc repo.refs rf rev := hp
  show (List.find? (fun q => q.1 == p.2) ((rev, c) :: repo.commits)).isSome = true
  rcases setAssoc_mem repo.refs rf rev p hp2 with hmem | hmem
  · by_cases hrev2 : rev = p.2
    · rw [List.find?_cons_of_pos]
      · simp
      · simpa using hrev2
    · rw [List.find?_cons_of_neg]
      · exact hc p hmem
      · simpa using hrev2
  · have hp22 : p.2 = rev := by rw [hmem]
    rw [List.find?_cons_of_pos]
    · simp
    · simp [hp22]

/-- Importing a commit and repointing one ref to a commit id keeps every
ref target non-empty. -/
theorem refs_nonempty_after_import (repo : OstreeRepo) (rf rev : String)
    (hr : RefsNonEmpty repo) (hrev : rev ≠ "") :
    ∀ p ∈ setAssoc repo.refs rf rev, p.2 ≠ "" := by
  intro p hp
  rcases setAssoc_mem repo.refs rf rev p hp with hmem | hmem
  · exact hr p hmem
  · rw [hmem]
    exact hrev

/-- Full characterization of a successful transaction body: the staged
tree, commit and ref update all land in the committed repository at
commit time, and the event trace is the four pipeline events. -/
theorem import_txn_ok_inv :
    ∀ (reg : Registry) (fs : FS) (faults : IOFaults) (r : Resolved)
      (st1 : RepoState) (x : OstreeRepo) (rev : String),
      st1.txn = some x →
      (import_txn reg fs faults r st1).1 = .ok rev →
      ∃ (mtree : Tree) (parent : Option String) (subject body ref : String),
        giStr r.ref = .ok ref ∧
        rev = commitId { parent := parent, subject := subject, body := body,
                         metadata := r.metadata, root := treeId mtree,
                         timestamp := r.timestamp } ∧
        import_txn reg fs faults r st1 =
          (.ok rev,
           { repo := { refs := setAssoc x.refs ref rev,
                       commits := (rev, { parent := parent, subject := subject,
                                          body := body, metadata := r.metadata,
                                          root := treeId mtree,
                                          timestamp := r.timestamp }) :: x.commits,
                       objects := (treeId mtree, mtree) :: x.objects },
             txn := none },
           [.treeWritten (treeId mtree), .commitWritten rev,
            .refUpdated ref rev, .txnCommitted]) := by
  intro reg fs faults r st1 x rev htxn hok
  cases hl : (r.manifest.getItem "layers").bind JVal.asArr with
  | error e2 => simp [import_txn, hl] at hok
  | ok layers =>
  cases hll : loopLayers reg fs faults [] layers with
  | error e2 => simp [import_txn, hl, hll] at hok
  | ok mtree =>
  cases htw : faults.treeWrite with
  | some e2 => simp [import_txn, hl, hll, htw] at hok
  | none =>
  cases hpar : giOptStr r.parent with
  | error e2 => simp [import_txn, hl, hll, htw, hpar] at hok
  | ok parent =>
  cases hsub : giStr r.subject with
  | error e2 => simp [import_txn, hl, hll, htw, hpar, hsub] at hok
  | ok subject =>
  cases hbody : giStr r.body with
  | error e2 => simp [import_txn, hl, hll, htw, hpar, hsub, hbody] at hok
  | ok body =>
  cases hcw : faults.commitWrite with
  | some e2 => simp [import_txn, hl, hll, htw, hpar, hsub, hbody, hcw] at hok
  | none =>
  cases href : giStr r.ref with
  | error e2 =>
      simp [import_txn, hl, hll, htw, hpar, hsub, hbody, hcw, href] at hok
  | ok ref =>
  cases hru : faults.refUpdate with
  | some e2 =>
      simp [import_txn, hl, hll, htw, hpar, hsub, hbody, hcw, href, hru] at hok
  | none =>
  cases htc : faults.txnCommit with
  | some e2 =>
      simp [import_txn, hl, hll, htw, hpar, hsub, hbody, hcw, href, hru,
            htc] at hok
  | none =>
  have hrev : rev =
      commitId ⟨parent, subject, body, r.metadata, treeId mtree, r.timestamp⟩ := by
    have := hok
    simp [import_txn, hl, hll, htw, hpar, hsub, hbody, hcw, href, hru, htc,
          write_mtree, write_commit_with_time, transaction_set_ref, stagedMod,
          htxn, commit_transaction] at this
    exact this.symm
  refine ⟨mtree, parent, subject, body, ref, rfl, hrev, ?_⟩
  rw [hrev]
  simp [import_txn, hl, hll, htw, hpar, hsub, hbody, hcw, href, hru, htc,
        write_mtree, write_commit_with_time, transaction_set_ref, stagedMod,
        htxn, commit_transaction]

/-- Full characterization of a successful import: the destination
repository gains exactly one commit, one tree object and one ref
update, and the event trace is the four pipeline events. -/
theorem import_image_ok_inv :
    ∀ (reg : Registry) (fs : FS) (faults : IOFaults) (st : RepoState)
      (d rev : String) (st2 : RepoState) (evs : List Event),
      st.txn = none →
      import_image reg fs faults st d = (.ok rev, st2, evs) →
      ∃ (r : Resolved) (mtree : Tree) (parent : Option String)
        (subject body ref : String),
        resolve_image reg fs d = .ok r ∧
        giStr r.ref = .ok ref ∧
        rev = commitId { parent := parent, subject := subject, body := body,
                         metadata := r.metadata, root := treeId mtree,
                         timestamp := r.timestamp } ∧
        st2 = { repo := { refs := setAssoc st.repo.refs ref rev,
                          commits := (rev, { parent := parent,
                                             subject := subject, body := body,
                                             metadata := r.metadata,
                                             root := treeId mtree,
                                             timestamp := r.timestamp }) ::
                            st.repo.commits,
                          objects := (treeId mtree, mtree) :: st.repo.objects },
                txn := none } ∧
        evs = [.treeWritten (treeId mtree), .commitWritten rev,
               .refUpdated ref rev, .txnCommitted] := by
  intro reg fs faults st d rev st2 evs htxn himp
  cases hres : resolve_image reg fs d with
  | error e => simp [import_image, hres] at himp
  | ok r =>
      have hpre : (prepare_transaction st).txn = some st.repo := rfl
      cases hti : import_txn reg fs faults r (prepare_transaction st) with
      | mk res rest =>
        cases rest with
        | mk stb evsb =>
          cases res with
          | error e => simp [import_image, hres, hti] at himp
          | ok rev0 =>
              have hok : (import_txn reg fs faults r (prepare_transaction st)).1 =
                  .ok rev0 := by rw [hti]
              obtain ⟨mtree, parent, subject, body, ref, href, hrev0, heq⟩ :=
                import_txn_ok_inv reg fs faults r (prepare_transaction st)
                  st.repo rev0 hpre hok
              rw [hti] at heq
              have hrev0eq : rev0 = rev := by
                have := himp
                simp [import_image, hres, hti] at this
                exact this.1
              have hst2 : stb = st2 ∧ evsb = evs := by
                have := himp
                simp [import_image, hres, hti] at this
                exact ⟨this.2.1, this.2.2⟩
              refine ⟨r, mtree, parent, subject, body, ref, rfl, href,
                hrev0eq ▸ hrev0, ?_, ?_⟩
              · rw [← hst2.1, ← hrev0eq]
                have := congrArg (fun q => q.2.1) heq
                simpa using this
              · rw [← hst2.2, ← hrev0eq]
                have := congrArg (fun q => q.2.2) heq
                simpa using this

/-- Inversion of a successful resolve: the metadata came from
build_commit_metadata over the loaded labels and config. -/
theorem resolve_image_ok_inv :
    ∀ (reg : Registry) (fs : FS) (d : String) (r : Resolved),
      resolve_image reg fs d = .ok r →
      ∃ m cfg labels, load_config_labels reg fs d = .ok (m, cfg, labels) ∧
        build_commit_metadata labels d cfg = .ok r.metadata := by
  intro reg fs d r hres
  cases hload : load_config_labels reg fs d with
  | error e => simp [resolve_image, hload, bind, Except.bind] at hres
  | ok triple =>
    obtain ⟨m, cfg, labels⟩ := triple
    cases h1 : pyDictGetJ labels "org.flatpak.ref" with
    | none => simp [resolve_image, hload, h1, bind, Except.bind] at hres
    | some refv =>
    cases h2 : pyDictGetJ labels "org.flatpak.timestamp" with
    | none => simp [resolve_image, hload, h1, h2, bind, Except.bind] at hres
    | some tsv =>
    cases h2b : pyIntJ tsv with
    | error e => simp [resolve_image, hload, h1, h2, h2b, bind, Except.bind] at hres
    | ok ts =>
    cases h3 : pyDictGetJ labels "org.flatpak.subject" with
    | none => simp [resolve_image, hload, h1, h2, h2b, h3, bind, Except.bind] at hres
    | some sv =>
    cases h4 : pyDictGetJ labels "org.flatpak.body" with
    | none =>
        simp [resolve_image, hload, h1, h2, h2b, h3, h4, bind, Except.bind] at hres
    | some bv =>
    cases h5 : build_commit_metadata labels d cfg with
    | error e =>
        simp [resolve_image, hload, h1, h2, h2b, h3, h4, h5, bind,
              Except.bind] at hres
    | ok md =>
        have hr : r.metadata = md := by
          have := hres
          simp [resolve_image, hload, h1, h2, h2b, h3, h4, h5, bind,
                Except.bind] at this
          rw [← this]
        exact ⟨m, cfg, labels, rfl, by rw [hr]; exact h5⟩

/-- Shape of successfully built metadata: it ends with the synthesized
xa.alt-id entry carrying the digest hash part, then the xa.diff-id
entry. -/
theorem build_commit_metadata_shape :
    ∀ (labels : List (String × JVal)) (d : String) (config : JVal)
      (md : List (String × MVal)) (a h : String),
      build_commit_metadata labels d config = .ok md →
      pySplitColon1 d = [a, h] →
      ∃ pre dh, md = pre ++ [("xa.alt-id", MVal.str h),
                             ("xa.diff-id", MVal.str dh)] := by
  intro labels d config md a h hb hsplit
  cases hbm : buildMeta labels with
  | error er => simp [build_commit_metadata, hbm, bind, Except.bind] at hb
  | ok pre =>
  cases hroot : config.getItem "rootfs" with
  | error er =>
      simp [build_commit_metadata, hbm, hsplit, unpack2, hroot, bind,
            Except.bind] at hb
  | ok rootfs =>
  cases hdiff : rootfs.getItem "diff_ids" with
  | error er =>
      simp [build_commit_metadata, hbm, hsplit, unpack2, hroot, hdiff, bind,
            Except.bind] at hb
  | ok diffsJ =>
  cases hdarr : diffsJ.asArr with
  | error er =>
      simp [build_commit_metadata, hbm, hsplit, unpack2, hroot, hdiff, hdarr,
            bind, Except.bind] at hb
  | ok diffs =>
  cases hlast : diffs.getLast? with
  | none =>
      simp [build_commit_metadata, hbm, hsplit, unpack2, hroot, hdiff, hdarr,
            hlast, bind, Except.bind] at hb
  | some lastJ =>
  cases hlstr : lastJ.asStr with
  | error er =>
      simp [build_commit_metadata, hbm, hsplit, unpack2, hroot, hdiff, hdarr,
            hlast, hlstr, bind, Except.bind] at hb
  | ok lastd =>
  cases hsplit2 : pySplitColon1 lastd with
  | nil =>
      simp [build_commit_metadata, hbm, hsplit, unpack2, hroot, hdiff, hdarr,
            hlast, hlstr, hsplit2, bind, Except.bind] at hb
  | cons y ys =>
    cases ys with
    | nil =>
        simp [build_commit_metadata, hbm, hsplit, unpack2, hroot, hdiff,
              hdarr, hlast, hlstr, hsplit2, bind, Except.bind] at hb
    | cons z zs =>
      cases zs with
      | cons w ws =>
          simp [build_commit_metadata, hbm, hsplit, unpack2, hroot, hdiff,
                hdarr, hlast, hlstr, hsplit2, bind, Except.bind] at hb
      | nil =>
          refine ⟨pre, z, ?_⟩
          have := hb
          simp [build_commit_metadata, hbm, hsplit, unpack2, hroot, hdiff,
                hdarr, hlast, hlstr, hsplit2, bind, Except.bind] at this
          simp [← this]

/-- The variant dictionary built over metadata ending in the synthesized
entries looks xa.alt-id up as the synthesized string. -/
theorem variant_lookup_alt (pre : List (String × MVal)) (h dh : String) :
    variant_dict_lookup_str
        (pre ++ [("xa.alt-id", MVal.str h), ("xa.diff-id", MVal.str dh)])
        "xa.alt-id" = some h := by
  have hfil : (pre ++ [("xa.alt-id", MVal.str h),
      ("xa.diff-id", MVal.str dh)]).filter (fun e => e.1 == "xa.alt-id") =
      pre.filter (fun e => e.1 == "xa.alt-id") ++ [("xa.alt-id", MVal.str h)] := by
    rw [List.filter_append]
    rfl
  rw [variant_dict_lookup_str, hfil]
  simp

/-- The transaction body never emits the republish event. -/
theorem import_txn_no_republish :
    ∀ (reg : Registry) (fs : FS) (faults : IOFaults) (r : Resolved)
      (st1 : RepoState),
      (import_txn reg fs faults r st1).2.2.count Event.republish = 0 := by
  intro reg fs faults r st1
  rw [List.count_eq_zero]
  intro hmem
  cases hl : (r.manifest.getItem "layers").bind JVal.asArr with
  | error e2 => simp [import_txn, hl] at hmem
  | ok layers =>
  cases hll : loopLayers reg fs faults [] layers with
  | error e2 => simp [import_txn, hl, hll] at hmem
  | ok mtree =>
  cases htw : faults.treeWrite with
  | some e2 => simp [import_txn, hl, hll, htw] at hmem
  | none =>
  cases hpar : giOptStr r.parent with
  | error e2 => simp [import_txn, hl, hll, htw, hpar] at hmem
  | ok parent =>
  cases hsub : giStr r.subject with
  | error e2 => simp [import_txn, hl, hll, htw, hpar, hsub] at hmem
  | ok subject =>
  cases hbody : giStr r.body with
  | error e2 => simp [import_txn, hl, hll, htw, hpar, hsub, hbody] at hmem
  | ok body =>
  cases hcw : faults.commitWrite with
  | some e2 => simp [import_txn, hl, hll, htw, hpar, hsub, hbody, hcw] at hmem
  | none =>
  cases href : giStr r.ref with
  | error e2 =>
      simp [import_txn, hl, hll, htw, hpar, hsub, hbody, hcw, href] at hmem
  | ok ref =>
  cases hru : faults.refUpdate with
  | some e2 =>
      simp [import_txn, hl, hll, htw, hpar, hsub, hbody, hcw, href, hru] at hmem
  | none =>
  cases htc : faults.txnCommit with
  | some e2 =>
      simp [import_txn, hl, hll, htw, hpar, hsub, hbody, hcw, href, hru,
            htc] at hmem
  | none =>
  cases hct : commit_transaction (transaction_set_ref (write_commit_with_time
      (write_mtree st1 mtree).1 parent subject body r.metadata
      (write_mtree st1 mtree).2 r.timestamp).1 ref
      (write_commit_with_time (write_mtree st1 mtree).1 parent subject body
        r.metadata (write_mtree st1 mtree).2 r.timestamp).2) with
  | error e2 =>
      simp [import_txn, hl, hll, htw, hpar, hsub, hbody, hcw, href, hru, htc,
            hct] at hmem
  | ok st4 =>
      simp [import_txn, hl, hll, htw, hpar, hsub, hbody, hcw, href, hru, htc,
            hct] at hmem

/-- An import emits no republish event. -/
theorem import_image_no_republish :
    ∀ (reg : Registry) (fs : FS) (faults : IOFaults) (st : RepoState)
      (d : String),
      (import_image reg fs faults st d).2.2.count Event.republish = 0 := by
  intro reg fs faults st d
  cases hres : resolve_image reg fs d with
  | error e => simp [import_image, hres]
  | ok r =>
      have h := import_txn_no_republish reg fs faults r (prepare_transaction st)
      cases hti : import_txn reg fs faults r (prepare_transaction st) with
      | mk res rest =>
        cases rest with
        | mk stb evsb =>
          rw [hti] at h
          cases res with
          | ok rev => simpa [import_image, hres, hti] using h
          | error e => simpa [import_image, hres, hti] using h

/-- The import loop emits no republish event. -/
theorem run_loop_no_republish :
    ∀ (images : List String) (reg : Registry) (fs : FS) (faults : IOFaults)
      (existing : List (String × String)) (st : RepoState),
      (run_loop reg fs faults existing st images).2.2.count Event.republish = 0 := by
  intro images
  induction images with
  | nil => intro reg fs faults existing st; simp [run_loop]
  | cons img rest ih =>
      intro reg fs faults existing st
      cases hdl : pyDictGetStr existing img with
      | some c =>
          by_cases hc : c ≠ ""
          · cases hloop : run_loop reg fs faults existing st rest with
            | mk res rest2 =>
              cases rest2 with
              | mk st2 evs =>
                have := ih reg fs faults existing st
                rw [hloop] at this
                simp only [run_loop, hdl, if_pos hc, hloop]
                simpa [List.count_cons] using this
          · have hc2 : c = "" := by simpa using hc
            cases himp : import_image reg fs faults st img with
            | mk res rest2 =>
              cases rest2 with
              | mk st2 evs =>
                have himpz := import_image_no_republish reg fs faults st img
                rw [himp] at himpz
                cases res with
                | ok rev =>
                    cases hloop : run_loop reg fs faults existing st2 rest with
                    | mk res2 rest3 =>
                      cases rest3 with
                      | mk st3 evs2 =>
                        have ihz := ih reg fs faults existing st2
                        rw [hloop] at ihz
                        simp only [run_loop, hdl, hc2, if_neg, himp, hloop]
                        simp [List.count_cons, List.count_append]
                        constructor
                        · simpa using himpz
                        · simpa using ihz
                | error e =>
                    simp only [run_loop, hdl, hc2, if_neg, himp]
                    simp [List.count_cons]
                    simpa using himpz
      | none =>
          cases himp : import_image reg fs faults st img with
          | mk res rest2 =>
            cases rest2 with
            | mk st2 evs =>
              have himpz := import_image_no_republish reg fs faults st img
              rw [himp] at himpz
              cases res with
              | ok rev =>
                  cases hloop : run_loop reg fs faults existing st2 rest with
                  | mk res2 rest3 =>
                    cases rest3 with
                    | mk st3 evs2 =>
                      have ihz := ih reg fs faults existing st2
                      rw [hloop] at ihz
                      simp only [run_loop, hdl, himp, hloop]
                      simp [List.count_cons, List.count_append]
                      constructor
                      · simpa using himpz
                      · simpa using ihz
              | error e =>
                  simp only [run_loop, hdl, himp]
                  simp [List.count_cons]
                  simpa using himpz

/-- C9: the summary republish runs exactly once, as the last action,
when the whole run succeeds, and never runs when any import failure
propagates out of the loop. -/
theorem republish_once_iff_success :
    ∀ (regRoot : String) (fs : FS) (faults : IOFaults) (st : RepoState)
      (pkgs : String),
      ((run regRoot fs faults st pkgs).1 = .ok () →
        (run regRoot fs faults st pkgs).2.2.count Event.republish = 1 ∧
        (run regRoot fs faults st pkgs).2.2.getLast? = some Event.republish) ∧
      (∀ e, (run regRoot fs faults st pkgs).1 = .error e →
        (run regRoot fs faults st pkgs).2.2.count Event.republish = 0) := by
  intro regRoot fs faults st pkgs
  cases hregn : registryNew regRoot fs with
  | error e2 =>
      constructor
      · intro h
        simp [run, hregn] at h
      · intro e he
        simp [run, hregn]
  | ok regfs =>
    cases regfs with
    | mk reg fs2 =>
      cases hiter : iter_commits st.repo st.repo.refs with
      | error e2 =>
          constructor
          · intro h
            simp [run, hregn, hiter] at h
          · intro e he
            simp [run, hregn, hiter]
      | ok pairs =>
          cases hloop : run_loop reg fs2 faults (pyDict pairs) st
              ((strSplit '\n' pkgs).filter (fun s => s ≠ "")) with
          | mk res rest =>
            cases rest with
            | mk st2 evs =>
              have hz := run_loop_no_republish
                ((strSplit '\n' pkgs).filter (fun s => s ≠ "")) reg fs2 faults
                (pyDict pairs) st
              rw [hloop] at hz
              cases res with
              | ok u =>
                  cases u
                  have hrun : run regRoot fs faults st pkgs =
                      (.ok (), st2, evs ++ [Event.republish]) := by
                    simp only [run, hregn, hiter]
                    rw [hloop]
                  constructor
                  · intro _
                    constructor
                    · rw [hrun]
                      simp [List.count_append, List.count_cons]
                      simpa using hz
                    · rw [hrun]
                      simp
                  · intro e he
                    rw [hrun] at he
                    simp at he
              | error e2 =>
                  have hrun : run regRoot fs faults st pkgs =
                      (.error e2, st2, evs) := by
                    simp only [run, hregn, hiter]
                    rw [hloop]
                  constructor
                  · intro h
                    rw [hrun] at h
                    simp at h
                  · intro e he
                    rw [hrun]
                    simpa using hz

/-- Witness for C9 at an empty input list: the run succeeds and emits
exactly the final republish. -/
theorem republish_once_iff_success_witness :
    (run "/reg" fsX noFaults st0 "").2.2.count Event.republish = 1 ∧
    (run "/reg" fsX noFaults st0 "").2.2.getLast? = some Event.republish :=
  (republish_once_iff_success "/reg" fsX noFaults st0 "").1 rfl

/-- A digest with no truthy dedup-index entry always takes the import
branch of the loop. -/
theorem run_loop_skipFalse :
    ∀ (reg : Registry) (fs : FS) (faults : IOFaults)
      (ex : List (String × String)) (st : RepoState) (d : String)
      (rest : List String),
      pyTruthyOpt (pyDictGetStr ex d) = false →
      run_loop reg fs faults ex st (d :: rest) =
        (match import_image reg fs faults st d with
         | (.ok _, st2, evs) =>
             match run_loop reg fs faults ex st2 rest with
             | (res, st3, evs2) => (res, st3, Event.importing d :: evs ++ evs2)
         | (.error e, st2, evs) => (.error e, st2, Event.importing d :: evs)) := by
  intro reg fs faults ex st d rest htruthy
  cases hdl : pyDictGetStr ex d with
  | none => simp [run_loop, hdl]
  | some c =>
      rw [hdl] at htruthy
      have hc : c = "" := by simpa [pyTruthyOpt] using htruthy
      subst hc
      simp [run_loop, hdl]

/-- C10: the dedup index is computed once before the loop and never
refreshed, so an input listing twice a digest that was not initially
present runs the full pipeline (and commits) twice, and never reports
the digest as already present. -/
theorem stale_dedup_index_reimports :
    ∀ (regRoot : String) (fs : FS) (faults : IOFaults) (st : RepoState)
      (pkgs d : String) (pairs : List (String × String)),
      st.txn = none →
      (run regRoot fs faults st pkgs).1 = .ok () →
      iter_commits st.repo st.repo.refs = .ok pairs →
      pyTruthyOpt (pyDictGetStr (pyDict pairs) d) = false →
      (strSplit '\n' pkgs).filter (fun s => s ≠ "") = [d, d] →
      (run regRoot fs faults st pkgs).2.2.count (Event.importing d) = 2 ∧
      (run regRoot fs faults st pkgs).2.2.countP
        (fun ev => match ev with
          | Event.foundExisting i _ => i == d
          | _ => false) = 0 ∧
      (run regRoot fs faults st pkgs).2.2.count Event.txnCommitted = 2 := by
  intro regRoot fs faults st pkgs d pairs htxn hok hiter htruthy hfilter
  cases hregn : registryNew regRoot fs with
  | error e2 => simp [run, hregn] at hok
  | ok regfs =>
  cases regfs with
  | mk reg fs2 =>
  have hbranch1 := run_loop_skipFalse reg fs2 faults (pyDict pairs) st d [d]
    htruthy
  cases himp1 : import_image reg fs2 faults st d with
  | mk res1 rest1 =>
  cases rest1 with
  | mk stA evs1 =>
  cases res1 with
  | error e =>
      have hrun : run regRoot fs faults st pkgs =
          (.error e, stA, Event.importing d :: evs1) := by
        simp only [run, hregn, hiter, hfilter]
        rw [hbranch1]
        simp only [himp1]
      rw [hrun] at hok
      simp at hok
  | ok rev1 =>
  have hbranch2 := run_loop_skipFalse reg fs2 faults (pyDict pairs) stA d []
    htruthy
  cases himp2 : import_image reg fs2 faults stA d with
  | mk res2 rest2 =>
  cases rest2 with
  | mk stB evs2 =>
  cases res2 with
  | error e =>
      have hrun : run regRoot fs faults st pkgs =
          (.error e, stB, Event.importing d :: evs1 ++
            (Event.importing d :: evs2)) := by
        simp only [run, hregn, hiter, hfilter]
        rw [hbranch1]
        simp only [himp1]
        rw [hbranch2]
        simp only [himp2]
      rw [hrun] at hok
      simp at hok
  | ok rev2 =>
  obtain ⟨r1, m1, pp1, s1, b1, ref1, hres1, href1, hrev1, hstA, hevs1⟩ :=
    import_image_ok_inv reg fs2 faults st d rev1 stA evs1 htxn himp1
  have htxnA : stA.txn = none := by rw [hstA]
  obtain ⟨r2, m2, pp2, s2, b2, ref2, hres2, href2, hrev2, hstB, hevs2⟩ :=
    import_image_ok_inv reg fs2 faults stA d rev2 stB evs2 htxnA himp2
  have hrun : run regRoot fs faults st pkgs =
      (.ok (), stB,
       (Event.importing d :: evs1 ++ (Event.importing d :: evs2 ++ [])) ++
         [Event.republish]) := by
    simp only [run, hregn, hiter, hfilter]
    rw [hbranch1]
    simp only [himp1]
    rw [hbranch2]
    simp only [himp2]
    rfl
  rw [hrun, hevs1, hevs2]
  refine ⟨?_, ?_, ?_⟩
  · simp [List.count_cons, List.count_append]
  · simp [List.countP_cons, List.countP_append]
  · simp [List.count_cons, List.count_append]

/-- Witness for C10: importing the fixture digest twice from an empty
store imports and commits twice and never reports it as present. -/
theorem stale_dedup_index_reimports_witness :
    (run "/reg" fsX noFaults st0 "sha256:mm\nsha256:mm").2.2.count
        (Event.importing "sha256:mm") = 2 ∧
    (run "/reg" fsX noFaults st0 "sha256:mm\nsha256:mm").2.2.countP
        (fun ev => match ev with
          | Event.foundExisting i _ => i == "sha256:mm"
          | _ => false) = 0 ∧
    (run "/reg" fsX noFaults st0 "sha256:mm\nsha256:mm").2.2.count
        Event.txnCommitted = 2 :=
  stale_dedup_index_reimports "/reg" fsX noFaults st0 "sha256:mm\nsha256:mm"
    "sha256:mm" [] rfl rfl rfl rfl rfl

/-- C2: after any successful driver run whose input list is one digest
of sha256 form, re-running the driver on the resulting store with the
same input performs zero writes (the store value is returned unchanged),
reports the digest as already present with its existing commit, and
counts as success; this covers both the fresh-import and the
already-present first run. -/
theorem dedup_rerun_noop :
    ∀ (regRoot : String) (fs : FS) (faults : IOFaults) (st : RepoState)
      (pkgs d h : String),
      Consistent st.repo → RefsNonEmpty st.repo → st.txn = none →
      pySplitColon1 d = ["sha256", h] → d = "sha256:" ++ h →
      (strSplit '\n' pkgs).filter (fun s => s ≠ "") = [d] →
      (run regRoot fs faults st pkgs).1 = .ok () →
      ∃ c, c ≠ "" ∧
        run regRoot fs faults ((run regRoot fs faults st pkgs).2.1) pkgs =
          (.ok (), (run regRoot fs faults st pkgs).2.1,
           [Event.foundExisting d c, Event.republish]) := by
  intro regRoot fs faults st pkgs d h hcons hne htxn hsplit hd hfilter hok
  cases hregn : registryNew regRoot fs with
  | error e2 => simp [run, hregn] at hok
  | ok regfs =>
  cases regfs with
  | mk reg fs2 =>
  cases hiter1 : iter_commits st.repo st.repo.refs with
  | error e2 => simp [run, hregn, hiter1] at hok
  | ok pairs =>
  cases htruthy : pyTruthyOpt (pyDictGetStr (pyDict pairs) d) with
  | true =>
      -- first run already skipped: the store is unchanged and the same
      -- lookup succeeds again
      cases hdl : pyDictGetStr (pyDict pairs) d with
      | none => rw [hdl] at htruthy; simp [pyTruthyOpt] at htruthy
      | some c =>
          rw [hdl] at htruthy
          have hc : c ≠ "" := by simpa [pyTruthyOpt] using htruthy
          have hrun1 : run regRoot fs faults st pkgs =
              (.ok (), st, [Event.foundExisting d c, Event.republish]) := by
            simp only [run, hregn, hiter1, hfilter]
            simp [run_loop, hdl, hc]
          have hproj : (run regRoot fs faults st pkgs).2.1 = st := by
            rw [hrun1]
          refine ⟨c, hc, ?_⟩
          rw [hproj, hrun1]
  | false =>
      -- first run imported: the commit written carries xa.alt-id = h,
      -- so the rebuilt index finds d
      have hbranch := run_loop_skipFalse reg fs2 faults (pyDict pairs) st d []
        htruthy
      cases himp : import_image reg fs2 faults st d with
      | mk res1 rest1 =>
      cases rest1 with
      | mk stA evs1 =>
      cases res1 with
      | error e =>
          have hrun1 : run regRoot fs faults st pkgs =
              (.error e, stA, Event.importing d :: evs1) := by
            simp only [run, hregn, hiter1, hfilter]
            rw [hbranch]
            simp only [himp]
          rw [hrun1] at hok
          simp at hok
      | ok rev =>
      obtain ⟨r, mtree, parent, subject, body, ref, hres, href, hrev, hstA,
        hevs1⟩ := import_image_ok_inv reg fs2 faults st d rev stA evs1 htxn himp
      subst hstA
      have hrun1 : run regRoot fs faults st pkgs =
          (.ok (),
           (⟨⟨setAssoc st.repo.refs ref rev,
              (rev, ⟨parent, subject, body, r.metadata, treeId mtree,
                     r.timestamp⟩) :: st.repo.commits,
              (treeId mtree, mtree) :: st.repo.objects⟩, none⟩ : RepoState),
           (Event.importing d :: evs1 ++ []) ++ [Event.republish]) := by
        simp only [run, hregn, hiter1, hfilter]
        rw [hbranch]
        simp only [himp]
        rfl
      obtain ⟨m, cfg, labels, hload, hbuild⟩ :=
        resolve_image_ok_inv reg fs2 d r hres
      obtain ⟨pre, dh, hmdshape⟩ :=
        build_commit_metadata_shape labels d cfg r.metadata "sha256" h hbuild
          hsplit
      have halt : variant_dict_lookup_str r.metadata "xa.alt-id" = some h := by
        rw [hmdshape]
        exact variant_lookup_alt pre h dh
      have hrevne : rev ≠ "" := by
        rw [hrev]
        exact commitId_ne_empty _
      have hconsA := consistent_after_import st.repo ref rev
        ⟨parent, subject, body, r.metadata, treeId mtree, r.timestamp⟩
        (treeId mtree) mtree hcons
      obtain ⟨pairs2, hiter2, hvals⟩ :=
        iter_commits_ok _ hconsA (setAssoc st.repo.refs ref rev)
          (fun p hp => hp)
      have hresolve : resolve_rev
          ⟨setAssoc st.repo.refs ref rev,
           (rev, ⟨parent, subject, body, r.metadata, treeId mtree,
                  r.timestamp⟩) :: st.repo.commits,
           (treeId mtree, mtree) :: st.repo.objects⟩ ref = .ok rev := by
        simp [resolve_rev, setAssoc_self_find st.repo.refs ref rev]
      have hloadc : load_commit
          ⟨setAssoc st.repo.refs ref rev,
           (rev, ⟨parent, subject, body, r.metadata, treeId mtree,
                  r.timestamp⟩) :: st.repo.commits,
           (treeId mtree, mtree) :: st.repo.objects⟩ rev =
          .ok ⟨parent, subject, body, r.metadata, treeId mtree,
               r.timestamp⟩ := by
        rw [load_commit, List.find?_cons_of_pos] <;> simp
      have hmem2 : (d, rev) ∈ pairs2 := by
        rw [hd]
        exact iter_commits_mem _ _ pairs2 ref rev rev h _ hiter2
          (setAssoc_mem_self st.repo.refs ref rev) hresolve hloadc halt
      obtain ⟨v, hget, hvmem⟩ := pyDict_get_of_mem pairs2 d rev hmem2
      have hv : v ≠ "" := by
        obtain ⟨p, hp, hvp⟩ := hvals (d, v) hvmem
        have hvp2 : v = p.2 := hvp
        rw [hvp2]
        exact refs_nonempty_after_import st.repo ref rev hne hrevne p hp
      have hproj : (run regRoot fs faults st pkgs).2.1 =
          (⟨⟨setAssoc st.repo.refs ref rev,
             (rev, ⟨parent, subject, body, r.metadata, treeId mtree,
                    r.timestamp⟩) :: st.repo.commits,
             (treeId mtree, mtree) :: st.repo.objects⟩, none⟩ : RepoState) := by
        rw [hrun1]
      refine ⟨v, hv, ?_⟩
      rw [hproj]
      simp only [run, hregn]
      rw [hiter2, hfilter]
      simp [run_loop, hget, hv]

/-- Witness for C2: importing the fixture digest into an empty store and
re-running the driver leaves the store unchanged and reports the digest
as already present under its existing commit. -/
theorem dedup_rerun_noop_witness :
    run "/reg" fsX noFaults ((run "/reg" fsX noFaults st0 "sha256:mm").2.1)
        "sha256:mm" =
      (.ok (), (run "/reg" fsX noFaults st0 "sha256:mm").2.1,
       [Event.foundExisting "sha256:mm"
          "commit:0:4:subj8:bodytext57:6:xa.foo=p98,97,114;9:xa.alt-id=s2:mm;10:xa.diff-id=s2:d230:tree:5:a.txt=2:v2;5:b.txt=2:b17",
        Event.republish]) := by
  obtain ⟨c, hc, hrun⟩ := dedup_rerun_noop "/reg" fsX noFaults st0 "sha256:mm"
    "sha256:mm" "mm"
    (by intro p hp; simp [st0] at hp)
    (by intro p hp; simp [st0] at hp)
    rfl rfl rfl rfl rfl
  have hceq : c =
      "commit:0:4:subj8:bodytext57:6:xa.foo=p98,97,114;9:xa.alt-id=s2:mm;10:xa.diff-id=s2:d230:tree:5:a.txt=2:v2;5:b.txt=2:b17" := by
    have h2 : (run "/reg" fsX noFaults
        ((run "/reg" fsX noFaults st0 "sha256:mm").2.1) "sha256:mm").2.2 =
        [Event.foundExisting "sha256:mm" c, Event.republish] := by
      rw [hrun]
    have h3 : (run "/reg" fsX noFaults
        ((run "/reg" fsX noFaults st0 "sha256:mm").2.1) "sha256:mm").2.2 =
        [Event.foundExisting "sha256:mm"
          "commit:0:4:subj8:bodytext57:6:xa.foo=p98,97,114;9:xa.alt-id=s2:mm;10:xa.diff-id=s2:d230:tree:5:a.txt=2:v2;5:b.txt=2:b17",
         Event.republish] := rfl
    rw [h2] at h3
    simpa using h3
  rw [hceq] at hrun
  exact hrun

/-- Witness for C8: sha256 is configured in the fixture registry,
sha512 is not. -/
theorem path_for_blob_algorithm_cases_witness :
    regX.path_for_blob "sha512:aa" = .ok none ∧
    regX.path_for_blob "sha256:aa" = .ok (some "/reg/blobs/sha256/aa") :=
  ⟨(path_for_blob_algorithm_cases regX "sha512:aa" "sha512" "aa" rfl).1 rfl,
   (path_for_blob_algorithm_cases regX "sha256:aa" "sha256" "aa" rfl).2
     ("sha256", "/reg/blobs/sha256") rfl⟩

end FlatpakImport
